import Mathlib

/-!
Verification of the Quantum-Cryptography-Project backend against its
natural-language specification.

The development shallowly embeds the Python sources:

* `crypto_implementations.py` — the `RSACrypto`, `ECCCrypto`, `AESCrypto`,
  `DilithiumCrypto` and `FalconCrypto` classes;
* `routes/algorithms.py` — the `test_algorithm` harness, `compare_algorithms`
  and `seed_algorithms` handlers;
* `routes/reports.py` — the `generate_security_report` handler;
* `routes/tests.py` — the `bulk_delete_tests` handler.

Byte strings are `List Nat` with every entry below 256.  External library
primitives that the repository merely calls (the RSA modular-exponentiation
core, the AES block permutation, elliptic-curve Diffie-Hellman, SHA-256 and
MGF1) are taken as explicit function parameters together with the soundness
facts those libraries guarantee; everything the repository itself computes
(base64 transport encoding, OAEP framing, CBC chaining, PKCS#7 and
space padding, JSON envelope fields, dispatch and aggregation logic) is
defined concretely.  The UTF-8 text layer is elided: plaintexts are modelled
directly as the byte strings the Python code obtains from
`str.encode("utf-8")`.
-/

/-- Byte-string well-formedness: every entry is an octet. -/
def IsBytes (l : List Nat) : Prop := ∀ b ∈ l, b < 256

instance (l : List Nat) : Decidable (IsBytes l) := by
  unfold IsBytes; infer_instance

/-- Pointwise exclusive or of two byte strings, as performed by the OAEP
masking step and by CBC chaining. -/
def listXor (a b : List Nat) : List Nat := List.zipWith Nat.xor a b

/-- The 64-character base64 alphabet used by `base64.b64encode`. -/
def b64Alphabet : List Char :=
  ['A','B','C','D','E','F','G','H','I','J','K','L','M','N','O','P',
   'Q','R','S','T','U','V','W','X','Y','Z',
   'a','b','c','d','e','f','g','h','i','j','k','l','m','n','o','p',
   'q','r','s','t','u','v','w','x','y','z',
   '0','1','2','3','4','5','6','7','8','9','+','/']

/-- Map a sextet (a value below 64) to its base64 character. -/
def sextetToChar (s : Nat) : Char := b64Alphabet.getD s 'A'

/-- Linear scan computing the index of a character in the alphabet. -/
def charToSextetAux : List Char → Nat → Char → Nat
  | [], _, _ => 0
  | c :: rest, i, t => if t = c then i else charToSextetAux rest (i + 1) t

/-- Map a base64 character back to its sextet. -/
def charToSextet (c : Char) : Nat := charToSextetAux b64Alphabet 0 c

/-- Base64-encode a byte string, as `base64.b64encode(...).decode("utf-8")`
does: groups of three octets become four characters, a trailing group of one
or two octets is completed with `=` padding. -/
def b64encode : List Nat → List Char
  | [] => []
  | [b1] =>
      [sextetToChar (b1 / 4), sextetToChar (b1 % 4 * 16), '=', '=']
  | [b1, b2] =>
      [sextetToChar (b1 / 4), sextetToChar (b1 % 4 * 16 + b2 / 16),
       sextetToChar (b2 % 16 * 4), '=']
  | b1 :: b2 :: b3 :: rest =>
      sextetToChar (b1 / 4) :: sextetToChar (b1 % 4 * 16 + b2 / 16) ::
      sextetToChar (b2 % 16 * 4 + b3 / 64) :: sextetToChar (b3 % 64) ::
      b64encode rest

/-- Base64-decode, as `base64.b64decode` does on well-formed input: four
characters yield three octets, with `=` padding cutting the final group down
to one or two octets. -/
def b64decode : List Char → List Nat
  | c1 :: c2 :: c3 :: c4 :: rest =>
      let s1 := charToSextet c1
      let s2 := charToSextet c2
      if c3 = '=' then [s1 * 4 + s2 / 16]
      else
        let s3 := charToSextet c3
        if c4 = '=' then [s1 * 4 + s2 / 16, s2 % 16 * 16 + s3 / 4]
        else (s1 * 4 + s2 / 16) :: (s2 % 16 * 16 + s3 / 4) ::
             (s3 % 4 * 64 + charToSextet c4) :: b64decode rest
  | _ => []

/-- Big-endian fixed-length octet-string encoding of a natural number
(I2OSP from PKCS#1, the conversion the RSA library applies to the result of
modular exponentiation). -/
def i2osp (x : Nat) : Nat → List Nat
  | 0 => []
  | k + 1 => i2osp (x / 256) k ++ [x % 256]

/-- Big-endian octet-string-to-integer conversion (OS2IP from PKCS#1). -/
def os2ip (l : List Nat) : Nat := l.foldl (fun acc b => acc * 256 + b) 0

/-!
RSA (class `RSACrypto`).  The repository delegates to the `cryptography`
library's RSA-OAEP with SHA-256 for both the digest and the MGF1 mask
(`crypto_implementations.py` lines 74-119).  The OAEP framing and the modular
exponentiation are modelled concretely; the hash and mask-generation
functions are parameters with their guaranteed output-length facts stated as
hypotheses of the round-trip theorem.
-/

/-- Hash and mask-generation primitives supplied by the `cryptography`
library for RSA-OAEP (SHA-256 and MGF1-SHA-256). -/
structure RSAOaepLib where
  hash : List Nat → List Nat
  mgf : List Nat → Nat → List Nat

/-- OAEP encoding of a message into a key-length octet string, per the
library's implementation of PKCS#1 v2 with an empty label: the data block is
`lHash ++ zero padding ++ 0x01 ++ message`, masked with MGF1 from a random
seed, the seed masked back from the masked data block, all framed behind a
leading zero octet. -/
def oaepEncode (lib : RSAOaepLib) (kLen : Nat) (seed m : List Nat) : List Nat :=
  let hLen := (lib.hash []).length
  let lHash := lib.hash []
  let ps := List.replicate (kLen - m.length - 2 * hLen - 2) 0
  let db := lHash ++ ps ++ 1 :: m
  let maskedDB := listXor db (lib.mgf seed (kLen - hLen - 1))
  let maskedSeed := listXor seed (lib.mgf maskedDB hLen)
  0 :: maskedSeed ++ maskedDB

/-- OAEP decoding: unmask the seed and data block, check the leading octet,
the label hash and the `0x01` separator, and return the message. -/
def oaepDecode (lib : RSAOaepLib) (kLen : Nat) (em : List Nat) :
    Except String (List Nat) :=
  let hLen := (lib.hash []).length
  match em with
  | [] => .error "RSA decryption failed: Decryption failed."
  | y :: rest =>
    let maskedSeed := rest.take hLen
    let maskedDB := rest.drop hLen
    let seed := listXor maskedSeed (lib.mgf maskedDB hLen)
    let db := listXor maskedDB (lib.mgf seed (kLen - hLen - 1))
    if y ≠ 0 ∨ db.take hLen ≠ lib.hash [] then
      .error "RSA decryption failed: Decryption failed."
    else
      match (db.drop hLen).dropWhile (fun b => b == 0) with
      | 1 :: msg => .ok msg
      | _ => .error "RSA decryption failed: Decryption failed."

/-- Validity of an RSA key pair in the sense the library guarantees for its
generated keys: a product of two distinct primes whose byte length is
`kLen`, with inverse public and private exponents modulo the totient. -/
def RSAKeyValid (p q e d kLen : Nat) : Prop :=
  p.Prime ∧ q.Prime ∧ p ≠ q ∧
  e * d ≡ 1 [MOD (p - 1) * (q - 1)] ∧
  256 ^ (kLen - 1) ≤ p * q ∧ p * q < 256 ^ kLen

/-- Encryption method of `RSACrypto`: OAEP-encode, raise to the public
exponent modulo `n`, and base64-encode the fixed-length octet string of the
result.  Oversized plaintexts are rejected by the library with an error that
the class wraps (the UTF-8 plaintext encoding step is elided: the model
works on the encoded bytes). -/
def RSACrypto.encrypt (lib : RSAOaepLib) (n e kLen : Nat) (seed m : List Nat) :
    Except String (List Char) :=
  let hLen := (lib.hash []).length
  if kLen < m.length + 2 * hLen + 2 then
    .error "RSA encryption failed: Data too long for key size."
  else
    .ok (b64encode (i2osp (os2ip (oaepEncode lib kLen seed m) ^ e % n) kLen))

/-- Decryption method of `RSACrypto`: base64-decode, check the ciphertext
length and range, raise to the private exponent modulo `n`, and OAEP-decode
(the final UTF-8 decode of the plaintext bytes is elided). -/
def RSACrypto.decrypt (lib : RSAOaepLib) (n d kLen : Nat) (ct : List Char) :
    Except String (List Nat) :=
  let cBytes := b64decode ct
  if cBytes.length ≠ kLen then
    .error "RSA decryption failed: Ciphertext length must be equal to key size."
  else if n ≤ os2ip cBytes then
    .error "RSA decryption failed: Decryption failed."
  else
    oaepDecode lib kLen (i2osp (os2ip cBytes ^ d % n) kLen)

/-!
AES (class `AESCrypto`) and the CBC mode shared with the ECC hybrid path
(`crypto_implementations.py` lines 286-349 and 194-283).  The AES block
permutation itself is a library primitive, modelled as a keyed pair of
functions; chaining, the IV, PKCS#7 padding and the base64/JSON envelope are
the repository's responsibility and are modelled concretely.
-/

/-- A keyed 16-byte block cipher as provided by the AES libraries. -/
structure BlockCipher where
  encB : List Nat → List Nat → List Nat
  decB : List Nat → List Nat → List Nat

/-- Soundness facts the AES libraries guarantee for every key: on a 16-octet
block the forward permutation returns a 16-octet block and the backward
permutation inverts it. -/
def BlockCipher.Sound (bc : BlockCipher) : Prop :=
  ∀ key b, b.length = 16 → IsBytes b →
    (bc.encB key b).length = 16 ∧ IsBytes (bc.encB key b) ∧
    bc.decB key (bc.encB key b) = b

/-- Fuelled CBC encryption: consume the plaintext sixteen bytes at a time,
XOR each block into the previous ciphertext block (initially the IV) and
apply the block cipher.  The fuel is decremented once per block; supplying
the byte length as fuel is always sufficient. -/
def cbcEncryptF (E : List Nat → List Nat) : Nat → List Nat → List Nat → List Nat
  | 0, _, _ => []
  | _ + 1, _, [] => []
  | fuel + 1, prev, b :: bs =>
    let c := E (listXor ((b :: bs).take 16) prev)
    c ++ cbcEncryptF E fuel c ((b :: bs).drop 16)

/-- CBC encryption of a full plaintext under an IV. -/
def cbcEncrypt (E : List Nat → List Nat) (iv pt : List Nat) : List Nat :=
  cbcEncryptF E pt.length iv pt

/-- Fuelled CBC decryption, inverse chaining of `cbcEncryptF`. -/
def cbcDecryptF (D : List Nat → List Nat) : Nat → List Nat → List Nat → List Nat
  | 0, _, _ => []
  | _ + 1, _, [] => []
  | fuel + 1, prev, b :: bs =>
    let c := (b :: bs).take 16
    listXor (D c) prev ++ cbcDecryptF D fuel c ((b :: bs).drop 16)

/-- CBC decryption of a full ciphertext under an IV. -/
def cbcDecrypt (D : List Nat → List Nat) (iv ct : List Nat) : List Nat :=
  cbcDecryptF D ct.length iv ct

/-- PKCS#7 padding as applied by `Crypto.Util.Padding.pad` with block size
16: append `n` copies of the octet `n`, where `n` is 16 minus the length
remainder (a full extra block when the length is already a multiple). -/
def pkcs7pad (m : List Nat) : List Nat :=
  let n := 16 - m.length % 16
  m ++ List.replicate n n

/-- PKCS#7 unpadding as performed by `Crypto.Util.Padding.unpad`: reject
empty or misaligned input, read the final octet as the padding length,
check the padding bytes, and strip them. -/
def pkcs7unpad (l : List Nat) : Except String (List Nat) :=
  if l.length = 0 then
    .error "AES decryption failed: Zero-length input cannot be unpadded"
  else if l.length % 16 ≠ 0 then
    .error "AES decryption failed: Input data is not padded"
  else
    let n := l.getLast?.getD 0
    if n < 1 ∨ 16 < n then
      .error "AES decryption failed: Padding is incorrect."
    else if l.drop (l.length - n) ≠ List.replicate n n then
      .error "AES decryption failed: PKCS#7 padding is incorrect."
    else .ok (l.take (l.length - n))

/-- The JSON envelope produced by `AESCrypto.encrypt`: base64 ciphertext and
base64 IV (JSON serialization of the two named fields is elided as a
structural bijection). -/
structure AESEnvelope where
  ciphertext : List Char
  iv : List Char
deriving DecidableEq, Repr

/-- Encryption method of `AESCrypto`: PKCS#7-pad, CBC-encrypt under a random
16-byte IV, and package base64 ciphertext and IV. -/
def AESCrypto.encrypt (bc : BlockCipher) (key iv m : List Nat) : AESEnvelope :=
  { ciphertext := b64encode (cbcEncrypt (bc.encB key) iv (pkcs7pad m)),
    iv := b64encode iv }

/-- Decryption method of `AESCrypto`: base64-decode the fields, CBC-decrypt
and strip the PKCS#7 padding (final UTF-8 decode elided). -/
def AESCrypto.decrypt (bc : BlockCipher) (key : List Nat) (env : AESEnvelope) :
    Except String (List Nat) :=
  pkcs7unpad (cbcDecrypt (bc.decB key) (b64decode env.iv) (b64decode env.ciphertext))

/-!
ECC hybrid encryption (class `ECCCrypto`, `crypto_implementations.py` lines
194-283): ephemeral ECDH, an AES key derived as the first 32 bytes of the
SHA-256 of the shared secret, CBC under a random 16-byte IV with
space padding to the block boundary, and an envelope of base64 ciphertext,
IV and PEM-serialized ephemeral public key.  Decryption strips all trailing
space bytes.  Curve points, the exchange, SHA-256 and PEM serialization are
library primitives, modelled as parameters over opaque key byte blobs.
-/

/-- Elliptic-curve and hashing primitives used by `ECCCrypto`. -/
structure ECCLib where
  bc : BlockCipher
  sha256 : List Nat → List Nat
  exchange : List Nat → List Nat → List Nat
  serializePub : List Nat → List Nat
  loadPub : List Nat → List Nat

/-- The JSON envelope produced by `ECCCrypto.encrypt`. -/
structure ECCEnvelope where
  ciphertext : List Char
  iv : List Char
  ephemeral_public_key : List Char
deriving DecidableEq, Repr

/-- Space padding used by the ECC hybrid path: append ASCII-space bytes up
to the 16-byte boundary (a full block of 16 spaces when already aligned,
since `16 - len % 16` is then 16). -/
def spacePad (m : List Nat) : List Nat :=
  m ++ List.replicate (16 - m.length % 16) 32

/-- The `rstrip(b" ")` step of `ECCCrypto.decrypt`: drop every trailing
ASCII-space byte. -/
def rstripSpaces (m : List Nat) : List Nat :=
  (m.reverse.dropWhile (fun b => b == 32)).reverse

/-- Encryption method of `ECCCrypto`: ECDH between the ephemeral private key
and the recipient's static public key, SHA-256-derived AES key (first 32
bytes), space padding, CBC, and the three-field envelope. -/
def ECCCrypto.encrypt (lib : ECCLib) (publicKey ephPriv ephPub iv m : List Nat) :
    ECCEnvelope :=
  let sharedKey := lib.exchange ephPriv publicKey
  let aesKey := (lib.sha256 sharedKey).take 32
  { ciphertext := b64encode (cbcEncrypt (lib.bc.encB aesKey) iv (spacePad m)),
    iv := b64encode iv,
    ephemeral_public_key := b64encode (lib.serializePub ephPub) }

/-- Decryption method of `ECCCrypto`: recover the ephemeral public key, redo
the exchange with the static private key, derive the AES key, CBC-decrypt
and strip trailing spaces (final UTF-8 decode elided). -/
def ECCCrypto.decrypt (lib : ECCLib) (privateKey : List Nat) (env : ECCEnvelope) :
    List Nat :=
  let ephPub := lib.loadPub (b64decode env.ephemeral_public_key)
  let sharedKey := lib.exchange privateKey ephPub
  let aesKey := (lib.sha256 sharedKey).take 32
  rstripSpaces (cbcDecrypt (lib.bc.decB aesKey) (b64decode env.iv)
    (b64decode env.ciphertext))

/-!
Post-quantum signature stand-ins (classes `DilithiumCrypto` and
`FalconCrypto`, `crypto_implementations.py` lines 435-589).  Signing draws a
random byte string of the size fixed by the security level and packages it
with a hash field and the algorithm name; note that the source builds that
hash by finalizing a fresh SHA-256 object WITHOUT ever updating it with the
message (the encoded message variable is dead), so the stored digest is the
digest of the empty byte string.  Verification only checks that the parsed
envelope has the `signature` and `algorithm` fields.
-/

/-- Signature envelope: the JSON document produced by the `sign` methods,
with `Option` fields recording which keys are present (a structurally valid
but tampered envelope may lack some). -/
structure SigEnvelope where
  signature : Option (List Char)
  message_hash : Option (List Char)
  algorithm : Option String
deriving DecidableEq, Repr

/-- Mock signature size table of `DilithiumCrypto.sign` (security level 2, 3
or 5; default 2420). -/
def dilithiumSignatureSize (securityLevel : Nat) : Nat :=
  if securityLevel = 2 then 2420
  else if securityLevel = 3 then 3293
  else if securityLevel = 5 then 4595
  else 2420

/-- Mock signature size table of `FalconCrypto.sign` (key size 512 or 1024;
default 690). -/
def falconSignatureSize (keySize : Nat) : Nat :=
  if keySize = 512 then 690 else if keySize = 1024 then 1330 else 690

/-- Signing method of `DilithiumCrypto`: base64 of the random signature
bytes, base64 of the finalized-empty SHA-256 digest (the message argument is
encoded but never hashed in the source), and the algorithm name.  The
`sigRandom` argument stands for the `get_random_bytes(signature_size)`
draw. -/
def DilithiumCrypto.sign (sha256 : List Nat → List Nat) (securityLevel : Nat)
    (sigRandom : List Nat) (message : List Nat) : SigEnvelope :=
  { signature := some (b64encode sigRandom),
    message_hash := some (b64encode (sha256 [])),
    algorithm := some "Dilithium" }

/-- Verification method of `DilithiumCrypto`: with no public key material it
raises; otherwise it parses the envelope and returns whether the
`signature` and `algorithm` fields are present — the signature bytes, the
hash and the message are never examined. -/
def DilithiumCrypto.verify (publicKeyPresent : Bool) (message : List Nat)
    (signatureData : SigEnvelope) : Except String Bool :=
  if publicKeyPresent then
    .ok (signatureData.signature.isSome && signatureData.algorithm.isSome)
  else
    .error "Dilithium verification failed: Public key not available for verification"

/-- Signing method of `FalconCrypto`, identical in structure to the
Dilithium one (including the finalized-empty digest). -/
def FalconCrypto.sign (sha256 : List Nat → List Nat) (keySize : Nat)
    (sigRandom : List Nat) (message : List Nat) : SigEnvelope :=
  { signature := some (b64encode sigRandom),
    message_hash := some (b64encode (sha256 [])),
    algorithm := some "Falcon" }

/-- Verification method of `FalconCrypto`, identical in structure to the
Dilithium one. -/
def FalconCrypto.verify (publicKeyPresent : Bool) (message : List Nat)
    (signatureData : SigEnvelope) : Except String Bool :=
  if publicKeyPresent then
    .ok (signatureData.signature.isSome && signatureData.algorithm.isSome)
  else
    .error "Falcon verification failed: Public key not available for verification"

/-!
Algorithm catalog rows (`models.Algorithm`) and the seed list shared by
`routes/algorithms.py::seed_algorithms` and `init_db.py::init_database`.
Row identifiers model the autoincrement primary key in insertion order.
-/

/-- The six categories present in `ALGORITHM_IMPLEMENTATIONS`. -/
inductive Category where
  | RSA | ECC | AES | Kyber | Dilithium | Falcon
deriving DecidableEq, Repr

/-- An `Algorithm` catalog row. -/
structure Algorithm where
  id : Nat
  name : String
  type : String
  category : Category
  key_size : Nat
  description : String
  quantum_safe : Bool
deriving DecidableEq, Repr

/-- The fixed seed list (six classical entries followed by seven
post-quantum entries), transcribed from the source. -/
def seedList : List Algorithm :=
  [ { id := 1, name := "RSA-2048", type := "classical", category := .RSA,
      key_size := 2048, description := "RSA encryption with 2048-bit key",
      quantum_safe := false },
    { id := 2, name := "RSA-4096", type := "classical", category := .RSA,
      key_size := 4096, description := "RSA encryption with 4096-bit key",
      quantum_safe := false },
    { id := 3, name := "ECC-P256", type := "classical", category := .ECC,
      key_size := 256,
      description := "Elliptic Curve Cryptography with P-256 curve",
      quantum_safe := false },
    { id := 4, name := "ECC-P384", type := "classical", category := .ECC,
      key_size := 384,
      description := "Elliptic Curve Cryptography with P-384 curve",
      quantum_safe := false },
    { id := 5, name := "AES-128", type := "classical", category := .AES,
      key_size := 128,
      description := "Advanced Encryption Standard with 128-bit key",
      quantum_safe := false },
    { id := 6, name := "AES-256", type := "classical", category := .AES,
      key_size := 256,
      description := "Advanced Encryption Standard with 256-bit key",
      quantum_safe := false },
    { id := 7, name := "Kyber-512", type := "post-quantum", category := .Kyber,
      key_size := 512, description := "CRYSTALS-Kyber with security level 1",
      quantum_safe := true },
    { id := 8, name := "Kyber-768", type := "post-quantum", category := .Kyber,
      key_size := 768, description := "CRYSTALS-Kyber with security level 3",
      quantum_safe := true },
    { id := 9, name := "Kyber-1024", type := "post-quantum", category := .Kyber,
      key_size := 1024, description := "CRYSTALS-Kyber with security level 5",
      quantum_safe := true },
    { id := 10, name := "Dilithium-2", type := "post-quantum",
      category := .Dilithium, key_size := 2,
      description := "CRYSTALS-Dilithium with security level 2",
      quantum_safe := true },
    { id := 11, name := "Dilithium-3", type := "post-quantum",
      category := .Dilithium, key_size := 3,
      description := "CRYSTALS-Dilithium with security level 3",
      quantum_safe := true },
    { id := 12, name := "Falcon-512", type := "post-quantum",
      category := .Falcon, key_size := 512,
      description := "Falcon signature scheme with 512-bit security",
      quantum_safe := true },
    { id := 13, name := "Falcon-1024", type := "post-quantum",
      category := .Falcon, key_size := 1024,
      description := "Falcon signature scheme with 1024-bit security",
      quantum_safe := true } ]

/-- Number of seed entries of a given category. -/
def countCategory (l : List Algorithm) (c : Category) : Nat :=
  (l.filter (fun a => a.category == c)).length

/-- The `seed_algorithms` handler: if any algorithm rows already exist the
call is a no-op reporting zero insertions, otherwise the full seed list is
inserted and its size reported. -/
def seed_algorithms (existing : List Algorithm) : List Algorithm × Nat :=
  if 0 < existing.length then (existing, 0)
  else (seedList, seedList.length)

/-!
The `test_algorithm` harness (`routes/algorithms.py` lines 85-227).  The
instantiated crypto object is abstracted as a bundle of already-applied
operations over an opaque result type `β` together with the two `hasattr`
capability flags; exceptions raised by an operation are its `Except.error`
value.  The persisted `Test` row keeps the fields the claims speak about
(user, database timing and metadata fields are elided).
-/

/-- Result of a `generate_keys` call as consumed by the harness output
( base64-encoded key strings whose lengths feed `public_key_size` and
`private_key_size`). -/
structure KeyGenResult where
  public_key : List Char
  private_key : List Char
deriving DecidableEq, Repr

/-- The `output_data` payload of a test record: a raw operation result, the
key-generation size summary, or the verification flag. -/
inductive OutputData (β : Type) where
  | val (v : β)
  | keyInfo (publicKeySize privateKeySize : Nat)
  | verified (b : Bool)
deriving DecidableEq, Repr

/-- The persisted test record. -/
structure TestRecord (β : Type) where
  test_type : String
  input_data : List Nat
  output_data : Option (OutputData β)
  success : Bool
  error_message : Option String
deriving DecidableEq, Repr

/-- Outcome of one harness invocation: either a persisted record (success or
caught failure) or an error response with no record. -/
inductive TestOutcome (β : Type) where
  | record (r : TestRecord β)
  | errorResponse (msg : String)
deriving DecidableEq, Repr

/-- The crypto instance as the harness sees it: capability flags from
`hasattr` and the five operations, already applied to the run's input. -/
structure HarnessOps (β : Type) where
  hasSign : Bool
  hasVerify : Bool
  encryptOp : Except String β
  decryptOp : β → Except String β
  keygenOp : Except String KeyGenResult
  signOp : Except String β
  verifyOp : β → Except String Bool

/-- The auto-correction applied before dispatch: an encryption request
against a Dilithium or Falcon algorithm becomes a signing request. -/
def remapTestType (category : Category) (test_type : String) : String :=
  if (category = .Dilithium ∨ category = .Falcon) ∧ test_type = "encryption"
  then "signing" else test_type

/-- Fold an operation result into a persisted record, as the try/except
around the dispatched operation does: a caught exception becomes a record
with `success=False` and `error_message` the exception text. -/
def recordOf (β : Type) (test_type : String) (input : List Nat) :
    Except String (OutputData β) → TestOutcome β
  | .ok v => .record
      { test_type := test_type, input_data := input,
        output_data := some v, success := true, error_message := none }
  | .error e => .record
      { test_type := test_type, input_data := input,
        output_data := none, success := false, error_message := some e }

/-- The operation the dispatch chain runs for a (post-remap) test type that
it supports: encryption; encrypt-then-decrypt; key generation with the size
summary; signing; or sign-then-verify. -/
def dispatchResult (β : Type) (ops : HarnessOps β) (tt : String) :
    Except String (OutputData β) :=
  if tt = "encryption" then ops.encryptOp.map .val
  else if tt = "decryption" then (ops.encryptOp.bind ops.decryptOp).map .val
  else if tt = "key_generation" then
    ops.keygenOp.map (fun k => .keyInfo k.public_key.length k.private_key.length)
  else if tt = "signing" then ops.signOp.map .val
  else (ops.signOp.bind ops.verifyOp).map .verified

/-- Whether the dispatch chain has a branch for a (post-remap) test type:
the three always-present branches, plus signing/verification guarded by the
`hasattr` flags. -/
def supportedTestType (hasSign hasVerify : Bool) (tt : String) : Bool :=
  tt == "encryption" || tt == "decryption" || tt == "key_generation" ||
  (tt == "signing" && hasSign) || (tt == "verification" && hasVerify)

/-- The `test_algorithm` harness body: remap the test type, dispatch, fold
the caught result into a record; a test type with no matching branch yields
the 400 error response and no record. -/
def test_algorithm (β : Type) (ops : HarnessOps β) (category : Category)
    (test_type : String) (input : List Nat) : TestOutcome β :=
  let tt := remapTestType category test_type
  if tt = "encryption" then recordOf β tt input (ops.encryptOp.map .val)
  else if tt = "decryption" then
    recordOf β tt input ((ops.encryptOp.bind ops.decryptOp).map .val)
  else if tt = "key_generation" then
    recordOf β tt input (ops.keygenOp.map
      (fun k => .keyInfo k.public_key.length k.private_key.length))
  else if tt = "signing" ∧ ops.hasSign then
    recordOf β tt input (ops.signOp.map .val)
  else if tt = "verification" ∧ ops.hasVerify then
    recordOf β tt input ((ops.signOp.bind ops.verifyOp).map .verified)
  else .errorResponse ("Unsupported test type: " ++ tt)

/-!
The `compare_algorithms` handler (`routes/algorithms.py` lines 263-349).
Catalog lookup is a function from row id to an optional row; the
per-algorithm encrypt/decrypt/key-generation triad is a bundle of operations
(each category in `ALGORITHM_IMPLEMENTATIONS` has an implementation class,
so only a failed catalog lookup triggers the silent `continue`).  Wall-clock
timings are supplied by an oracle indexed by row id, since the model does
not measure real time.
-/

/-- Per-algorithm performance block of a comparison row. -/
structure PerfTimes where
  encryption_time_ms : ℚ
  decryption_time_ms : ℚ
  key_generation_time_ms : ℚ
deriving DecidableEq, Repr

/-- The `total_time_ms` field: sum of the three measured times. -/
def PerfTimes.total_time_ms (p : PerfTimes) : ℚ :=
  p.encryption_time_ms + p.decryption_time_ms + p.key_generation_time_ms

/-- One entry of the `comparison` array. -/
structure ComparisonRow where
  algorithm : Algorithm
  performance : Option PerfTimes
  success : Bool
  error : Option String
deriving DecidableEq, Repr

/-- The encrypt/decrypt/key-generation triad of an instantiated
implementation, each operation already applied to the run's test data. -/
structure TriadOps (α : Type) where
  encryptOp : Except String α
  decryptOp : α → Except String (List Nat)
  keygenOp : Except String KeyGenResult

/-- One iteration of the comparison loop: the triad runs inside one try
block (encrypt, then decrypt of that ciphertext, then key generation); the
first exception yields a row with `performance = None` and the error text,
otherwise the row carries the timings and the decrypted-equals-input flag. -/
def compareRow (α : Type) (alg : Algorithm) (ops : TriadOps α)
    (times : PerfTimes) (test_data : List Nat) : ComparisonRow :=
  match ops.encryptOp with
  | .error e =>
      { algorithm := alg, performance := none, success := false, error := some e }
  | .ok ct =>
    match ops.decryptOp ct with
    | .error e =>
        { algorithm := alg, performance := none, success := false, error := some e }
    | .ok decrypted =>
      match ops.keygenOp with
      | .error e =>
          { algorithm := alg, performance := none, success := false,
            error := some e }
      | .ok _ =>
          { algorithm := alg, performance := some times,
            success := decide (decrypted = test_data), error := none }

/-- The `compare_algorithms` handler: fewer than two ids is a 400 error;
otherwise one row per id that resolves in the catalog, ids that do not
resolve being skipped by the loop's `continue`. -/
def compare_algorithms (α : Type) (lookup : Nat → Option Algorithm)
    (opsFor : Algorithm → TriadOps α) (timesFor : Nat → PerfTimes)
    (algorithm_ids : List Nat) (test_data : List Nat) :
    Except String (List ComparisonRow) :=
  if algorithm_ids.length < 2 then
    .error "At least 2 algorithms required for comparison"
  else
    .ok (algorithm_ids.filterMap (fun i =>
      (lookup i).map (fun alg => compareRow α alg (opsFor alg) (timesFor i) test_data)))

/-!
The security report (`routes/reports.py::generate_security_report`, lines
300-552).  Python float arithmetic on success rates is modelled exactly over
`ℚ`; the `round(..., 2)` display rounding and the narrative note strings are
elided, the tier strings and threshold comparisons are kept verbatim.
-/

/-- A persisted test row, with the fields the report and deletion handlers
consult. -/
structure TestRow where
  id : Nat
  user_id : Nat
  algorithm_id : Nat
  success : Bool
deriving DecidableEq, Repr

/-- The caller's test rows for one algorithm
(`Test.query.filter_by(user_id=..., algorithm_id=...)`). -/
def testsFor (tests : List TestRow) (userId algId : Nat) : List TestRow :=
  tests.filter (fun t => t.user_id == userId && t.algorithm_id == algId)

/-- Success rate as a percentage, zero when the algorithm has no tests. -/
def successRate (tests : List TestRow) (userId algId : Nat) : ℚ :=
  let total := (testsFor tests userId algId).length
  let succXs := ((testsFor tests userId algId).filter (fun t => t.success)).length
  if 0 < total then (succXs : ℚ) / (total : ℚ) * 100 else 0

/-- The fixed tier rule table crossing `quantum_safe` with the success-rate
buckets (at least 95, at least 80, below 80).  Every branch assigns a tier,
so the initial "unknown" value in the source is always overwritten. -/
def securityLevelFor (quantumSafe : Bool) (rate : ℚ) : String :=
  if quantumSafe then
    if 95 ≤ rate then "high"
    else if 80 ≤ rate then "medium-high"
    else "medium"
  else
    if 95 ≤ rate then "medium"
    else if 80 ≤ rate then "medium-low"
    else "low"

/-- One entry of the `algorithm_analysis` array. -/
structure SecurityAnalysisEntry where
  algorithm : Algorithm
  total_tests : Nat
  successful_tests : Nat
  success_rate : ℚ
  level : String
deriving DecidableEq, Repr

/-- Build the analysis entry for one catalog algorithm. -/
def analysisEntry (tests : List TestRow) (userId : Nat) (alg : Algorithm) :
    SecurityAnalysisEntry :=
  let rate := successRate tests userId alg.id
  { algorithm := alg,
    total_tests := (testsFor tests userId alg.id).length,
    successful_tests :=
      ((testsFor tests userId alg.id).filter (fun t => t.success)).length,
    success_rate := rate,
    level := securityLevelFor alg.quantum_safe rate }

/-- Count of the caller's tests that join to a catalog algorithm with the
given `quantum_safe` flag (the SQL inner join drops tests whose algorithm id
has no catalog row). -/
def quantumTestCount (algorithms : List Algorithm) (tests : List TestRow)
    (userId : Nat) (qs : Bool) : Nat :=
  (tests.filter (fun t => t.user_id == userId &&
    algorithms.any (fun a => a.id == t.algorithm_id && a.quantum_safe == qs))).length

/-- The quantum-readiness score: post-quantum test volume over total joined
test volume as a percentage, zero when there are no joined tests. -/
def pqAdoptionRate (algorithms : List Algorithm) (tests : List TestRow)
    (userId : Nat) : ℚ :=
  let pq := quantumTestCount algorithms tests userId true
  let classical := quantumTestCount algorithms tests userId false
  if 0 < pq + classical then (pq : ℚ) / ((pq : ℚ) + (classical : ℚ)) * 100
  else 0

/-- The adoption-bucket recommendation chosen by the three fixed thresholds. -/
def adoptionRecommendation (rate : ℚ) : String :=
  if rate < 25 then
    "Low post-quantum cryptography adoption detected. Start evaluating and migrating to quantum-safe algorithms."
  else if rate < 50 then
    "Moderate post-quantum cryptography adoption. Accelerate migration to quantum-safe algorithms."
  else
    "Good post-quantum cryptography adoption. Continue expanding quantum-safe algorithm usage."

/-- The report body persisted by `generate_security_report` (narrative
summary and the weak-algorithm follow-up recommendation elided). -/
structure SecurityReport where
  quantum_readiness_score : ℚ
  algorithm_analysis : List SecurityAnalysisEntry
  recommendation : String
deriving DecidableEq, Repr

/-- The `generate_security_report` handler body: one analysis entry per
catalog algorithm (not just the tested ones), the readiness score, and the
threshold-bucketed recommendation. -/
def generate_security_report (algorithms : List Algorithm)
    (tests : List TestRow) (userId : Nat) : SecurityReport :=
  { quantum_readiness_score := pqAdoptionRate algorithms tests userId,
    algorithm_analysis := algorithms.map (analysisEntry tests userId),
    recommendation := adoptionRecommendation (pqAdoptionRate algorithms tests userId) }

/-!
The `bulk_delete_tests` handler (`routes/tests.py` lines 231-269).  The
store is the caller-visible table of test rows; deletion of the matched rows
is the filter keeping the unmatched ones.
-/

/-- The `bulk_delete_tests` handler: an empty id list is rejected; the rows
matching `id IN test_ids AND user_id = current_user` are fetched, and unless
their number equals the number of requested ids the call fails with no
deletion; otherwise those rows are deleted and their count reported. -/
def bulk_delete_tests (store : List TestRow) (userId : Nat)
    (test_ids : List Nat) : Except String (Nat × List TestRow) :=
  if test_ids.length = 0 then .error "No test IDs provided"
  else
    let tests := store.filter (fun t => test_ids.contains t.id && t.user_id == userId)
    if tests.length ≠ test_ids.length then
      .error "Some tests not found or access denied"
    else
      .ok (tests.length,
        store.filter (fun t => !(test_ids.contains t.id && t.user_id == userId)))

/-!
Concrete instantiations used by closed witness and counterexample
statements: a trivial-but-sound block cipher, degenerate hash/MGF
parameters, a tiny valid RSA key, and the category operation bundles wired
from the embedded implementations.
-/

/-- The identity block cipher: a sound `BlockCipher` instance usable in
closed statements (soundness only requires a keyed permutation of 16-octet
blocks). -/
def idBlockCipher : BlockCipher :=
  { encB := fun _ b => b, decB := fun _ b => b }

/-- Degenerate OAEP primitives for closed statements: a one-byte hash and a
zero mask. -/
def trivRSALib : RSAOaepLib :=
  { hash := fun _ => [0], mgf := fun _ l => List.replicate l 0 }

/-- Degenerate ECC primitives for closed statements: identity block cipher,
empty digests, constant exchange and identity PEM serialization. -/
def trivECCLib : ECCLib :=
  { bc := idBlockCipher, sha256 := fun _ => [],
    exchange := fun _ _ => [], serializePub := fun k => k,
    loadPub := fun k => k }

/-- A tiny valid RSA key for closed statements: the product of the distinct
primes 65537 and 65539 has byte length 5, and 65537 is its own inverse
modulo the totient. -/
def rsaWitnessP : Nat := 65537

/-- Second prime of the witness key. -/
def rsaWitnessQ : Nat := 65539

/-- Public (and, for this key, private) exponent of the witness key. -/
def rsaWitnessE : Nat := 65537

/-- The harness operation bundle of an `RSACrypto` instance: no `sign` or
`verify` attribute, encrypt/decrypt/key generation wired from the embedded
implementation (the `signOp`/`verifyOp` fields are never dispatched because
the capability flags are false; byte-to-character plaintext decoding stands
in for UTF-8). -/
def mkRSAOps (lib : RSAOaepLib) (n e d kLen : Nat) (seed : List Nat)
    (pubPem privPem : List Char) (input : List Nat) : HarnessOps (List Char) :=
  { hasSign := false, hasVerify := false,
    encryptOp := RSACrypto.encrypt lib n e kLen seed input,
    decryptOp := fun ct => (RSACrypto.decrypt lib n d kLen ct).map
      (fun bs => bs.map Char.ofNat),
    keygenOp := .ok { public_key := pubPem, private_key := privPem },
    signOp := .error "AttributeError", verifyOp := fun _ => .error "AttributeError" }

/-- The harness operation bundle of a `DilithiumCrypto` instance: `sign` and
`verify` present, encryption and decryption raising the signature-only
errors, key generation returning the base64 of the random key draws. -/
def mkDilithiumOps (sha256 : List Nat → List Nat) (securityLevel : Nat)
    (sigRandom pubRandom privRandom : List Nat) (input : List Nat) :
    HarnessOps SigEnvelope :=
  { hasSign := true, hasVerify := true,
    encryptOp := .error "Dilithium is a signature algorithm, not for encryption. Use sign() method instead.",
    decryptOp := fun _ => .error "Dilithium is a signature algorithm, not for decryption. Use verify() method instead.",
    keygenOp := .ok { public_key := b64encode pubRandom,
                      private_key := b64encode privRandom },
    signOp := .ok (DilithiumCrypto.sign sha256 securityLevel sigRandom input),
    verifyOp := fun env => DilithiumCrypto.verify true input env }

/-- The harness operation bundle of a `FalconCrypto` instance. -/
def mkFalconOps (sha256 : List Nat → List Nat) (keySize : Nat)
    (sigRandom pubRandom privRandom : List Nat) (input : List Nat) :
    HarnessOps SigEnvelope :=
  { hasSign := true, hasVerify := true,
    encryptOp := .error "Falcon is a signature algorithm, not for encryption. Use sign() method instead.",
    decryptOp := fun _ => .error "Falcon is a signature algorithm, not for decryption. Use verify() method instead.",
    keygenOp := .ok { public_key := b64encode pubRandom,
                      private_key := b64encode privRandom },
    signOp := .ok (FalconCrypto.sign sha256 keySize sigRandom input),
    verifyOp := fun env => FalconCrypto.verify true input env }

/-- The comparison triad of a `DilithiumCrypto` instance: the first step
(encryption) raises the signature-only error. -/
def dilithiumTriad (pubRandom privRandom : List Nat) : TriadOps SigEnvelope :=
  { encryptOp := .error "Dilithium is a signature algorithm, not for encryption. Use sign() method instead.",
    decryptOp := fun _ => .error "Dilithium is a signature algorithm, not for decryption. Use verify() method instead.",
    keygenOp := .ok { public_key := b64encode pubRandom,
                      private_key := b64encode privRandom } }

/-- The Dilithium-2 catalog row (tenth seed entry). -/
def dilithium2Alg : Algorithm :=
  { id := 10, name := "Dilithium-2", type := "post-quantum",
    category := .Dilithium, key_size := 2,
    description := "CRYSTALS-Dilithium with security level 2",
    quantum_safe := true }

/-- A zero timing oracle value for closed statements. -/
def zeroTimes : PerfTimes :=
  { encryption_time_ms := 0, decryption_time_ms := 0,
    key_generation_time_ms := 0 }

/-- A catalog lookup for closed statements that resolves only id 1 (to the
Dilithium-2 row). -/
def onlyDilithiumLookup : Nat → Option Algorithm :=
  fun i => if i = 1 then some dilithium2Alg else none

/-- A triad assignment for closed statements mapping every algorithm to the
Dilithium triad. -/
def constDilithiumTriad : Algorithm → TriadOps SigEnvelope :=
  fun _ => dilithiumTriad [] []

/-- A zero timing oracle for closed statements. -/
def constZeroTimes : Nat → PerfTimes := fun _ => zeroTimes

/-!
Lemma zone.  Helper lemmas shared by the claim theorems, followed by the
claim theorems themselves.
-/

theorem charToSextet_sextetToChar : ∀ s, s < 64 → charToSextet (sextetToChar s) = s := by
  decide

theorem sextetToChar_ne_pad : ∀ s, s < 64 → sextetToChar s ≠ '=' := by
  decide

theorem b64decode_encode_aux :
    ∀ (n : Nat) (l : List Nat), l.length ≤ n → IsBytes l →
      b64decode (b64encode l) = l := by
  intro n
  induction n with
  | zero =>
    intro l hlen _
    have : l = [] := List.length_eq_zero.mp (Nat.le_zero.mp hlen)
    subst this
    rfl
  | succ n ih =>
    intro l hlen hb
    match l with
    | [] => rfl
    | [b1] =>
      have h1 : b1 < 256 := hb b1 (by simp)
      simp only [b64encode, b64decode]
      rw [charToSextet_sextetToChar _ (by omega),
          charToSextet_sextetToChar _ (by omega)]
      simp
      omega
    | [b1, b2] =>
      have h1 : b1 < 256 := hb b1 (by simp)
      have h2 : b2 < 256 := hb b2 (by simp)
      simp only [b64encode, b64decode]
      rw [charToSextet_sextetToChar _ (by omega),
          charToSextet_sextetToChar _ (by omega),
          charToSextet_sextetToChar _ (by omega)]
      rw [if_neg (sextetToChar_ne_pad _ (by omega))]
      simp
      omega
    | b1 :: b2 :: b3 :: rest =>
      have h1 : b1 < 256 := hb b1 (by simp)
      have h2 : b2 < 256 := hb b2 (by simp)
      have h3 : b3 < 256 := hb b3 (by simp)
      have hrest : IsBytes rest := fun b hbm => hb b (by simp [hbm])
      have hrlen : rest.length ≤ n := by
        simp only [List.length_cons] at hlen; omega
      simp only [b64encode, b64decode]
      rw [charToSextet_sextetToChar _ (by omega),
          charToSextet_sextetToChar _ (by omega),
          charToSextet_sextetToChar _ (by omega),
          charToSextet_sextetToChar _ (by omega)]
      rw [if_neg (sextetToChar_ne_pad _ (by omega)),
          if_neg (sextetToChar_ne_pad _ (by omega))]
      have e1 : b1 / 4 * 4 + (b1 % 4 * 16 + b2 / 16) / 16 = b1 := by omega
      have e2 : (b1 % 4 * 16 + b2 / 16) % 16 * 16 + (b2 % 16 * 4 + b3 / 64) / 4 = b2 := by
        omega
      have e3 : (b2 % 16 * 4 + b3 / 64) % 4 * 64 + b3 % 64 = b3 := by omega
      rw [e1, e2, e3, ih rest hrlen hrest]

theorem b64decode_b64encode (l : List Nat) (hl : IsBytes l) :
    b64decode (b64encode l) = l :=
  b64decode_encode_aux l.length l le_rfl hl

theorem i2osp_length (x : Nat) : ∀ k, (i2osp x k).length = k := by
  intro k
  induction k generalizing x with
  | zero => rfl
  | succ k ih => simp [i2osp, ih]

theorem i2osp_bytes (x : Nat) : ∀ k, IsBytes (i2osp x k) := by
  intro k
  induction k generalizing x with
  | zero => intro b hb; simp [i2osp] at hb
  | succ k ih =>
    intro b hb
    simp only [i2osp, List.mem_append, List.mem_singleton] at hb
    rcases hb with hb | hb
    · exact ih (x / 256) b hb
    · subst hb; exact Nat.mod_lt _ (by omega)

theorem os2ip_append_single (l : List Nat) (b : Nat) :
    os2ip (l ++ [b]) = os2ip l * 256 + b := by
  simp [os2ip, List.foldl_append]

theorem os2ip_i2osp (x : Nat) : ∀ k, x < 256 ^ k → os2ip (i2osp x k) = x := by
  intro k
  induction k generalizing x with
  | zero =>
    intro hx
    simp only [pow_zero, Nat.lt_one_iff] at hx
    simp [i2osp, os2ip, hx]
  | succ k ih =>
    intro hx
    have hdiv : x / 256 < 256 ^ k := by
      rw [Nat.div_lt_iff_lt_mul (by omega)]
      calc x < 256 ^ (k + 1) := hx
        _ = 256 ^ k * 256 := by ring
    simp only [i2osp, os2ip_append_single, ih (x / 256) hdiv]
    omega

theorem i2osp_os2ip (l : List Nat) (hl : IsBytes l) :
    i2osp (os2ip l) l.length = l := by
  induction l using List.reverseRecOn with
  | nil => rfl
  | append_singleton l b ih =>
    have hb : b < 256 := hl b (by simp)
    have hl2 : IsBytes l := fun c hc => hl c (by simp [hc])
    have hlen : (l ++ [b]).length = l.length + 1 := by simp
    rw [hlen, os2ip_append_single]
    simp only [i2osp]
    have hd : (os2ip l * 256 + b) / 256 = os2ip l := by omega
    have hm : (os2ip l * 256 + b) % 256 = b := by omega
    rw [hd, hm, ih hl2]

theorem os2ip_lt (l : List Nat) (hl : IsBytes l) : os2ip l < 256 ^ l.length := by
  induction l using List.reverseRecOn with
  | nil => simp [os2ip]
  | append_singleton l b ih =>
    have hb : b < 256 := hl b (by simp)
    have hl2 : IsBytes l := fun c hc => hl c (by simp [hc])
    have := ih hl2
    rw [os2ip_append_single]
    simp only [List.length_append, List.length_singleton, pow_succ]
    calc os2ip l * 256 + b < (os2ip l + 1) * 256 := by omega
      _ ≤ 256 ^ l.length * 256 := by
          have : os2ip l + 1 ≤ 256 ^ l.length := this
          exact Nat.mul_le_mul_right 256 this

theorem os2ip_cons_zero (l : List Nat) : os2ip (0 :: l) = os2ip l := by
  simp [os2ip]

theorem listXor_length (a b : List Nat) :
    (listXor a b).length = min a.length b.length := by
  simp [listXor]

theorem listXor_cancel : ∀ (a b : List Nat), a.length = b.length →
    listXor (listXor a b) b = a := by
  intro a
  induction a with
  | nil => intro b h; simp [listXor]
  | cons x xs ih =>
    intro b h
    cases b with
    | nil => simp at h
    | cons y ys =>
      have hih := ih ys (by simpa using h)
      simp only [listXor, List.zipWith_cons_cons] at hih ⊢
      have hx : (x.xor y).xor y = x := Nat.xor_cancel_right y x
      rw [hx, hih]

theorem listXor_bytes : ∀ (a b : List Nat), IsBytes a → IsBytes b →
    IsBytes (listXor a b) := by
  intro a
  induction a with
  | nil => intro b _ _ c hc; simp [listXor] at hc
  | cons x xs ih =>
    intro b ha hb
    cases b with
    | nil => intro c hc; simp [listXor] at hc
    | cons y ys =>
      intro c hc
      simp only [listXor, List.zipWith_cons_cons, List.mem_cons] at hc
      rcases hc with hc | hc
      · subst hc
        have hx : x < 256 := ha x (by simp)
        have hy : y < 256 := hb y (by simp)
        have h256 : (256 : Nat) = 2 ^ 8 := by norm_num
        rw [h256] at hx hy ⊢
        exact Nat.xor_lt_two_pow hx hy
      · exact ih ys (fun c h => ha c (by simp [h]))
          (fun c h => hb c (by simp [h])) c hc

theorem dropWhile_zero_replicate (k : Nat) (l : List Nat) :
    (List.replicate k 0 ++ l).dropWhile (fun b => b == 0) =
    l.dropWhile (fun b => b == 0) := by
  induction k with
  | zero => rfl
  | succ k ih => simpa [List.replicate_succ, List.dropWhile_cons] using ih

theorem pow_totientMultiple_mod_prime (p t e d m : Nat) (hp : p.Prime)
    (hM : 1 < (p - 1) * t) (hed : e * d ≡ 1 [MOD (p - 1) * t]) :
    m ^ (e * d) ≡ m [MOD p] := by
  haveI : Fact p.Prime := ⟨hp⟩
  have h1 : e * d % ((p - 1) * t) = 1 := by
    have h := hed
    unfold Nat.ModEq at h
    rwa [Nat.mod_eq_of_lt hM] at h
  have hk : e * d = 1 + (p - 1) * t * (e * d / ((p - 1) * t)) := by
    conv_lhs => rw [← Nat.div_add_mod (e * d) ((p - 1) * t)]
    omega
  have hz : (m : ZMod p) ^ (e * d) = (m : ZMod p) := by
    by_cases hm : (m : ZMod p) = 0
    · rw [hm, zero_pow (by omega)]
    · rw [hk, pow_add, pow_one]
      rw [show (p - 1) * t * (e * d / ((p - 1) * t))
            = (p - 1) * (t * (e * d / ((p - 1) * t))) from by ring]
      rw [pow_mul, ZMod.pow_card_sub_one_eq_one hm, one_pow, mul_one]
  have hcast : ((m ^ (e * d) : Nat) : ZMod p) = ((m : Nat) : ZMod p) := by
    push_cast
    exact hz
  exact (ZMod.natCast_eq_natCast_iff _ _ _).mp hcast

theorem rsa_roundtrip_int (p q e d m : Nat) (hp : p.Prime) (hq : q.Prime)
    (hpq : p ≠ q) (hed : e * d ≡ 1 [MOD (p - 1) * (q - 1)]) (hm : m < p * q) :
    (m ^ e % (p * q)) ^ d % (p * q) = m := by
  have hp2 := hp.two_le
  have hq2 := hq.two_le
  have hn0 : 0 < p * q := Nat.mul_pos (by omega) (by omega)
  have hM : 1 < (p - 1) * (q - 1) := by
    rcases Nat.lt_or_ge p 3 with h3 | h3
    · have hp' : p = 2 := by omega
      have hq' : 3 ≤ q := by omega
      subst hp'
      simpa using (by omega : 1 < q - 1)
    · calc 1 < 2 * 1 := by omega
        _ ≤ (p - 1) * (q - 1) := Nat.mul_le_mul (by omega) (by omega)
  have hstep : (m ^ e % (p * q)) ^ d ≡ m ^ (e * d) [MOD p * q] := by
    calc (m ^ e % (p * q)) ^ d
        ≡ (m ^ e) ^ d [MOD p * q] := (Nat.mod_modEq _ _).pow d
      _ = m ^ (e * d) := by rw [← pow_mul]
  have hmodp : m ^ (e * d) ≡ m [MOD p] :=
    pow_totientMultiple_mod_prime p (q - 1) e d m hp hM hed
  have hmodq : m ^ (e * d) ≡ m [MOD q] := by
    have hM' : 1 < (q - 1) * (p - 1) := by rwa [Nat.mul_comm] at hM
    have hed' : e * d ≡ 1 [MOD (q - 1) * (p - 1)] := by
      rwa [Nat.mul_comm (q - 1) (p - 1)]
    exact pow_totientMultiple_mod_prime q (p - 1) e d m hq hM' hed'
  have hcop : Nat.Coprime p q := (Nat.coprime_primes hp hq).mpr hpq
  have hmodn : m ^ (e * d) ≡ m [MOD p * q] :=
    (Nat.modEq_and_modEq_iff_modEq_mul hcop).mp ⟨hmodp, hmodq⟩
  have hfinal : (m ^ e % (p * q)) ^ d ≡ m [MOD p * q] := hstep.trans hmodn
  unfold Nat.ModEq at hfinal
  rwa [Nat.mod_eq_of_lt hm] at hfinal

theorem oaepDecode_oaepEncode (lib : RSAOaepLib) (kLen : Nat) (seed m : List Nat)
    (hmgfLen : ∀ s l, (lib.mgf s l).length = l)
    (hseedLen : seed.length = (lib.hash []).length)
    (hsize : m.length + 2 * (lib.hash []).length + 2 ≤ kLen) :
    oaepDecode lib kLen (oaepEncode lib kLen seed m) = .ok m := by
  have hdbLen : ((lib.hash [] ++ (List.replicate (kLen - m.length -
      2 * (lib.hash []).length - 2) 0 ++ 1 :: m))).length
      = kLen - (lib.hash []).length - 1 := by
    simp only [List.length_append, List.length_replicate, List.length_cons]
    omega
  have hmdbLen : (listXor (lib.hash [] ++ (List.replicate (kLen - m.length -
      2 * (lib.hash []).length - 2) 0 ++ 1 :: m))
      (lib.mgf seed (kLen - (lib.hash []).length - 1))).length
      = kLen - (lib.hash []).length - 1 := by
    rw [listXor_length, hdbLen, hmgfLen]
    simp
  have hencode : oaepEncode lib kLen seed m =
      0 :: (listXor seed (lib.mgf
          (listXor (lib.hash [] ++ (List.replicate (kLen - m.length -
            2 * (lib.hash []).length - 2) 0 ++ 1 :: m))
            (lib.mgf seed (kLen - (lib.hash []).length - 1)))
          (lib.hash []).length)
        ++ listXor (lib.hash [] ++ (List.replicate (kLen - m.length -
            2 * (lib.hash []).length - 2) 0 ++ 1 :: m))
            (lib.mgf seed (kLen - (lib.hash []).length - 1))) := by
    simp only [oaepEncode, List.cons_append, List.append_assoc]
  have hmsLen : (listXor seed (lib.mgf
      (listXor (lib.hash [] ++ (List.replicate (kLen - m.length -
        2 * (lib.hash []).length - 2) 0 ++ 1 :: m))
        (lib.mgf seed (kLen - (lib.hash []).length - 1)))
      (lib.hash []).length)).length = (lib.hash []).length := by
    rw [listXor_length, hseedLen, hmgfLen]
    simp
  rw [hencode]
  simp only [oaepDecode]
  rw [List.take_left' hmsLen, List.drop_left' hmsLen]
  rw [listXor_cancel seed _ (by rw [hseedLen, hmgfLen])]
  rw [listXor_cancel _ _ (by rw [hdbLen, hmgfLen])]
  rw [List.take_left' rfl, List.drop_left' rfl]
  rw [if_neg (by simp)]
  rw [dropWhile_zero_replicate]
  simp [List.dropWhile_cons]

theorem oaepEncode_length (lib : RSAOaepLib) (kLen : Nat) (seed m : List Nat)
    (hmgfLen : ∀ s l, (lib.mgf s l).length = l)
    (hseedLen : seed.length = (lib.hash []).length)
    (hsize : m.length + 2 * (lib.hash []).length + 2 ≤ kLen) :
    (oaepEncode lib kLen seed m).length = kLen := by
  simp only [oaepEncode, List.length_cons, List.length_append, listXor_length,
    hmgfLen, List.length_replicate, hseedLen]
  omega

theorem oaepEncode_bytes (lib : RSAOaepLib) (kLen : Nat) (seed m : List Nat)
    (hhashBytes : IsBytes (lib.hash []))
    (hmgfBytes : ∀ s l, IsBytes (lib.mgf s l))
    (hseedBytes : IsBytes seed) (hmBytes : IsBytes m) :
    IsBytes (oaepEncode lib kLen seed m) := by
  have hdbBytes : IsBytes (lib.hash [] ++
      (List.replicate (kLen - m.length - 2 * (lib.hash []).length - 2) 0 ++ 1 :: m)) := by
    intro b hb
    simp only [List.mem_append, List.mem_replicate, List.mem_cons] at hb
    rcases hb with hb | ⟨_, rfl⟩ | rfl | hb
    · exact hhashBytes b hb
    · omega
    · omega
    · exact hmBytes b hb
  intro b hb
  simp only [oaepEncode, List.cons_append, List.append_assoc, List.mem_cons,
    List.mem_append] at hb
  rcases hb with rfl | hb | hb
  · omega
  · exact listXor_bytes seed _ hseedBytes (hmgfBytes _ _) b hb
  · exact listXor_bytes _ _ (by simpa using hdbBytes) (hmgfBytes _ _) b hb

theorem rsa_crypto_roundtrip (lib : RSAOaepLib) (p q e d kLen : Nat)
    (seed m : List Nat) (hkey : RSAKeyValid p q e d kLen)
    (hhashBytes : IsBytes (lib.hash []))
    (hmgfLen : ∀ s l, (lib.mgf s l).length = l)
    (hmgfBytes : ∀ s l, IsBytes (lib.mgf s l))
    (hseedLen : seed.length = (lib.hash []).length)
    (hseedBytes : IsBytes seed) (hmBytes : IsBytes m)
    (hsize : m.length + 2 * (lib.hash []).length + 2 ≤ kLen) :
    ∃ ct, RSACrypto.encrypt lib (p * q) e kLen seed m = .ok ct ∧
          RSACrypto.decrypt lib (p * q) d kLen ct = .ok m := by
  obtain ⟨hp, hq, hpq, hed, hnlo, hnhi⟩ := hkey
  have hn0 : 0 < p * q := Nat.mul_pos hp.pos hq.pos
  have hemLen : (oaepEncode lib kLen seed m).length = kLen :=
    oaepEncode_length lib kLen seed m hmgfLen hseedLen hsize
  have hemBytes : IsBytes (oaepEncode lib kLen seed m) :=
    oaepEncode_bytes lib kLen seed m hhashBytes hmgfBytes hseedBytes hmBytes
  have hemShape : ∃ t, oaepEncode lib kLen seed m = 0 :: t := ⟨_, rfl⟩
  obtain ⟨t, ht⟩ := hemShape
  have htBytes : IsBytes t := fun b hb => hemBytes b (by rw [ht]; simp [hb])
  have htLen : t.length = kLen - 1 := by
    have := hemLen
    rw [ht] at this
    simp only [List.length_cons] at this
    omega
  have hemLt : os2ip (oaepEncode lib kLen seed m) < p * q := by
    rw [ht, os2ip_cons_zero]
    calc os2ip t < 256 ^ t.length := os2ip_lt t htBytes
      _ = 256 ^ (kLen - 1) := by rw [htLen]
      _ ≤ p * q := hnlo
  have hcLt : os2ip (oaepEncode lib kLen seed m) ^ e % (p * q) < p * q :=
    Nat.mod_lt _ hn0
  refine ⟨b64encode (i2osp (os2ip (oaepEncode lib kLen seed m) ^ e % (p * q)) kLen),
    ?_, ?_⟩
  · unfold RSACrypto.encrypt
    rw [if_neg (by omega)]
  · unfold RSACrypto.decrypt
    rw [b64decode_b64encode _ (i2osp_bytes _ kLen)]
    simp only [i2osp_length]
    rw [if_neg (by simp)]
    rw [os2ip_i2osp _ kLen (lt_trans hcLt hnhi)]
    rw [if_neg (by omega)]
    rw [rsa_roundtrip_int p q e d (os2ip (oaepEncode lib kLen seed m))
      hp hq hpq hed hemLt]
    have hinv := i2osp_os2ip _ hemBytes
    rw [hemLen] at hinv
    rw [hinv]
    exact oaepDecode_oaepEncode lib kLen seed m hmgfLen hseedLen hsize

theorem pkcs7pad_mod (m : List Nat) : (pkcs7pad m).length % 16 = 0 := by
  simp only [pkcs7pad, List.length_append, List.length_replicate]
  omega

theorem pkcs7pad_bytes (m : List Nat) (hm : IsBytes m) : IsBytes (pkcs7pad m) := by
  intro b hb
  simp only [pkcs7pad, List.mem_append, List.mem_replicate] at hb
  rcases hb with hb | ⟨_, rfl⟩
  · exact hm b hb
  · omega

theorem pkcs7unpad_pkcs7pad (m : List Nat) : pkcs7unpad (pkcs7pad m) = .ok m := by
  have h1 : 1 ≤ 16 - m.length % 16 := by omega
  have h16 : 16 - m.length % 16 ≤ 16 := by omega
  have hlast : (m ++ List.replicate (16 - m.length % 16) (16 - m.length % 16)).getLast?
      = some (16 - m.length % 16) := by
    rw [List.getLast?_append, List.getLast?_replicate]
    rw [if_neg (by omega)]
    rfl
  have hdrop : (m ++ List.replicate (16 - m.length % 16) (16 - m.length % 16)).drop
      ((m ++ List.replicate (16 - m.length % 16) (16 - m.length % 16)).length
        - (16 - m.length % 16))
      = List.replicate (16 - m.length % 16) (16 - m.length % 16) := by
    have hl : (m ++ List.replicate (16 - m.length % 16) (16 - m.length % 16)).length
        - (16 - m.length % 16) = m.length := by
      simp only [List.length_append, List.length_replicate]
      omega
    rw [hl]
    exact List.drop_left' rfl
  have htake : (m ++ List.replicate (16 - m.length % 16) (16 - m.length % 16)).take
      ((m ++ List.replicate (16 - m.length % 16) (16 - m.length % 16)).length
        - (16 - m.length % 16)) = m := by
    have hl : (m ++ List.replicate (16 - m.length % 16) (16 - m.length % 16)).length
        - (16 - m.length % 16) = m.length := by
      simp only [List.length_append, List.length_replicate]
      omega
    rw [hl]
    exact List.take_left' rfl
  show pkcs7unpad (m ++ List.replicate (16 - m.length % 16) (16 - m.length % 16))
      = .ok m
  unfold pkcs7unpad
  rw [if_neg (by simp only [List.length_append, List.length_replicate]; omega)]
  rw [if_neg (by simp only [List.length_append, List.length_replicate]; omega)]
  rw [hlast]
  simp only [Option.getD_some]
  rw [if_neg (by omega)]
  rw [if_neg (by rw [hdrop]; simp)]
  rw [htake]

theorem cbcEncryptF_props (E : List Nat → List Nat)
    (HE : ∀ b, b.length = 16 → IsBytes b → (E b).length = 16 ∧ IsBytes (E b)) :
    ∀ f prev pt, pt.length ≤ 16 * f → pt.length % 16 = 0 →
      prev.length = 16 → IsBytes prev → IsBytes pt →
      (cbcEncryptF E f prev pt).length = pt.length ∧
      IsBytes (cbcEncryptF E f prev pt) := by
  intro f
  induction f with
  | zero =>
    intro prev pt hle _ _ _ _
    have hpt : pt = [] := List.length_eq_zero.mp (by omega)
    subst hpt
    exact ⟨rfl, by intro b hb; simp [cbcEncryptF] at hb⟩
  | succ f ih =>
    intro prev pt hle hmod hprevLen hprevB hptB
    cases pt with
    | nil => exact ⟨rfl, by intro b hb; simp [cbcEncryptF] at hb⟩
    | cons b bs =>
      have hlen16 : 16 ≤ (b :: bs).length := by
        have hne : (b :: bs).length ≠ 0 := by simp
        omega
      have hblkLen : ((b :: bs).take 16).length = 16 := by
        simp only [List.length_take]
        omega
      have hblkB : IsBytes ((b :: bs).take 16) :=
        fun c hc => hptB c (List.mem_of_mem_take hc)
      have hxLen : (listXor ((b :: bs).take 16) prev).length = 16 := by
        rw [listXor_length, hblkLen, hprevLen]
        simp
      have hxB : IsBytes (listXor ((b :: bs).take 16) prev) :=
        listXor_bytes _ _ hblkB hprevB
      obtain ⟨hcLen, hcB⟩ := HE _ hxLen hxB
      have hdropLen : ((b :: bs).drop 16).length = (b :: bs).length - 16 := by
        simp
      have hdropB : IsBytes ((b :: bs).drop 16) :=
        fun c hc => hptB c (List.mem_of_mem_drop hc)
      obtain ⟨ihLen, ihB⟩ := ih (E (listXor ((b :: bs).take 16) prev))
        ((b :: bs).drop 16) (by omega) (by omega) hcLen hcB hdropB
      constructor
      · simp only [cbcEncryptF, List.length_append, hcLen, ihLen, hdropLen]
        omega
      · intro c hc
        simp only [cbcEncryptF, List.mem_append] at hc
        rcases hc with hc | hc
        · exact hcB c hc
        · exact ihB c hc

theorem cbcDecryptF_cbcEncryptF (E D : List Nat → List Nat)
    (HE : ∀ b, b.length = 16 → IsBytes b →
      (E b).length = 16 ∧ IsBytes (E b) ∧ D (E b) = b) :
    ∀ f g prev pt, pt.length ≤ 16 * f → pt.length ≤ 16 * g →
      pt.length % 16 = 0 → prev.length = 16 → IsBytes prev → IsBytes pt →
      cbcDecryptF D g prev (cbcEncryptF E f prev pt) = pt := by
  intro f
  induction f with
  | zero =>
    intro g prev pt hf _ _ _ _ _
    have hpt : pt = [] := List.length_eq_zero.mp (by omega)
    subst hpt
    cases g <;> rfl
  | succ f ih =>
    intro g prev pt hf hg hmod hprevLen hprevB hptB
    cases pt with
    | nil => cases g <;> rfl
    | cons b bs =>
      have hlen16 : 16 ≤ (b :: bs).length := by
        have hne : (b :: bs).length ≠ 0 := by simp
        omega
      cases g with
      | zero =>
        exfalso
        omega
      | succ g =>
        have hblkLen : ((b :: bs).take 16).length = 16 := by
          simp only [List.length_take]
          omega
        have hblkB : IsBytes ((b :: bs).take 16) :=
          fun c hc => hptB c (List.mem_of_mem_take hc)
        have hxLen : (listXor ((b :: bs).take 16) prev).length = 16 := by
          rw [listXor_length, hblkLen, hprevLen]
          simp
        have hxB : IsBytes (listXor ((b :: bs).take 16) prev) :=
          listXor_bytes _ _ hblkB hprevB
        obtain ⟨hcLen, hcB, hD⟩ := HE _ hxLen hxB
        have hdropB : IsBytes ((b :: bs).drop 16) :=
          fun c hc => hptB c (List.mem_of_mem_drop hc)
        have hdropLen : ((b :: bs).drop 16).length = (b :: bs).length - 16 := by
          simp
        have henc : cbcEncryptF E (f + 1) prev (b :: bs)
            = E (listXor ((b :: bs).take 16) prev)
              ++ cbcEncryptF E f (E (listXor ((b :: bs).take 16) prev))
                ((b :: bs).drop 16) := by
          simp only [cbcEncryptF]
        rw [henc]
        obtain ⟨c0, c', hc⟩ : ∃ c0 c',
            E (listXor ((b :: bs).take 16) prev) = c0 :: c' := by
          cases hE : E (listXor ((b :: bs).take 16) prev) with
          | nil => rw [hE] at hcLen; simp at hcLen
          | cons c0 c' => exact ⟨c0, c', rfl⟩
        rw [hc, List.cons_append]
        simp only [cbcDecryptF]
        rw [← List.cons_append]
        have hcLen' : (c0 :: c').length = 16 := by rw [← hc]; exact hcLen
        rw [List.take_left' hcLen', List.drop_left' hcLen', ← hc, hD]
        rw [listXor_cancel _ _ (by rw [hblkLen, hprevLen])]
        rw [ih g _ _ (by omega) (by omega) (by omega) hcLen hcB hdropB]
        exact List.take_append_drop 16 (b :: bs)

theorem aes_crypto_roundtrip (bc : BlockCipher) (key iv m : List Nat)
    (hbc : bc.Sound) (hivLen : iv.length = 16) (hivB : IsBytes iv)
    (hmB : IsBytes m) :
    AESCrypto.decrypt bc key (AESCrypto.encrypt bc key iv m) = .ok m := by
  have HE : ∀ b, b.length = 16 → IsBytes b →
      (bc.encB key b).length = 16 ∧ IsBytes (bc.encB key b) ∧
      bc.decB key (bc.encB key b) = b :=
    fun b hl hB => hbc key b hl hB
  have hpadB := pkcs7pad_bytes m hmB
  have hpadMod := pkcs7pad_mod m
  have hprops := cbcEncryptF_props (bc.encB key)
    (fun b hl hB => ⟨(HE b hl hB).1, (HE b hl hB).2.1⟩)
    (pkcs7pad m).length iv (pkcs7pad m) (by omega) hpadMod hivLen hivB hpadB
  unfold AESCrypto.encrypt AESCrypto.decrypt
  simp only [cbcEncrypt, cbcDecrypt]
  rw [b64decode_b64encode _ hivB, b64decode_b64encode _ hprops.2]
  rw [hprops.1]
  rw [cbcDecryptF_cbcEncryptF (bc.encB key) (bc.decB key) HE
    (pkcs7pad m).length (pkcs7pad m).length iv (pkcs7pad m)
    (by omega) (by omega) hpadMod hivLen hivB hpadB]
  exact pkcs7unpad_pkcs7pad m

theorem spacePad_mod (m : List Nat) : (spacePad m).length % 16 = 0 := by
  simp only [spacePad, List.length_append, List.length_replicate]
  omega

theorem spacePad_bytes (m : List Nat) (hm : IsBytes m) : IsBytes (spacePad m) := by
  intro b hb
  simp only [spacePad, List.mem_append, List.mem_replicate] at hb
  rcases hb with hb | ⟨_, rfl⟩
  · exact hm b hb
  · omega

theorem dropWhile_space_replicate (k : Nat) (l : List Nat) :
    (List.replicate k 32 ++ l).dropWhile (fun b => b == 32) =
    l.dropWhile (fun b => b == 32) := by
  induction k with
  | zero => rfl
  | succ k ih => simpa [List.replicate_succ, List.dropWhile_cons] using ih

theorem rstripSpaces_spacePad (m : List Nat) :
    rstripSpaces (spacePad m) = rstripSpaces m := by
  unfold rstripSpaces spacePad
  rw [List.reverse_append, List.reverse_replicate, dropWhile_space_replicate]

theorem rstripSpaces_no_trailing (m : List Nat) (h : m.getLast? ≠ some 32) :
    rstripSpaces m = m := by
  unfold rstripSpaces
  cases hrev : m.reverse with
  | nil =>
    have hm : m = [] := by simpa using congrArg List.reverse hrev
    subst hm
    rfl
  | cons x xs =>
    have hx : m.getLast? = some x := by
      rw [← List.head?_reverse, hrev]
      rfl
    have hxne : (x == 32) = false := by
      rw [hx] at h
      simpa using fun he => h (by rw [he])
    rw [List.dropWhile_cons, hxne]
    simp only [Bool.false_eq_true, if_false]
    rw [← hrev, List.reverse_reverse]

theorem ecc_crypto_roundtrip (lib : ECCLib)
    (staticPub staticPriv ephPriv ephPub iv m : List Nat)
    (hbc : lib.bc.Sound)
    (hexch : lib.exchange staticPriv (lib.loadPub (lib.serializePub ephPub))
      = lib.exchange ephPriv staticPub)
    (hserB : IsBytes (lib.serializePub ephPub))
    (hivLen : iv.length = 16) (hivB : IsBytes iv) (hmB : IsBytes m) :
    ECCCrypto.decrypt lib staticPriv
      (ECCCrypto.encrypt lib staticPub ephPriv ephPub iv m) = rstripSpaces m := by
  have hkey := (lib.sha256 (lib.exchange ephPriv staticPub)).take 32
  have HE : ∀ b, b.length = 16 → IsBytes b →
      (lib.bc.encB ((lib.sha256 (lib.exchange ephPriv staticPub)).take 32) b).length = 16 ∧
      IsBytes (lib.bc.encB ((lib.sha256 (lib.exchange ephPriv staticPub)).take 32) b) ∧
      lib.bc.decB ((lib.sha256 (lib.exchange ephPriv staticPub)).take 32)
        (lib.bc.encB ((lib.sha256 (lib.exchange ephPriv staticPub)).take 32) b) = b :=
    fun b hl hB => hbc _ b hl hB
  have hpadB := spacePad_bytes m hmB
  have hpadMod := spacePad_mod m
  have hprops := cbcEncryptF_props
    (lib.bc.encB ((lib.sha256 (lib.exchange ephPriv staticPub)).take 32))
    (fun b hl hB => ⟨(HE b hl hB).1, (HE b hl hB).2.1⟩)
    (spacePad m).length iv (spacePad m) (by omega) hpadMod hivLen hivB hpadB
  unfold ECCCrypto.encrypt ECCCrypto.decrypt
  simp only [cbcEncrypt, cbcDecrypt]
  rw [b64decode_b64encode _ hivB, b64decode_b64encode _ hprops.2,
      b64decode_b64encode _ hserB]
  rw [hexch]
  rw [hprops.1]
  rw [cbcDecryptF_cbcEncryptF _ _ HE (spacePad m).length (spacePad m).length iv
    (spacePad m) (by omega) (by omega) hpadMod hivLen hivB hpadB]
  exact rstripSpaces_spacePad m

/-- C2: for every RSA-family instance with a valid key and every plaintext
within the OAEP size bound, and for every AES-family instance with a sound
block cipher and every plaintext, decrypt of encrypt returns exactly the
plaintext (no loss). -/
theorem c2_rsa_aes_roundtrip
    (lib : RSAOaepLib) (p q e d kLen : Nat) (seed m : List Nat)
    (bc : BlockCipher) (key iv m2 : List Nat)
    (hkey : RSAKeyValid p q e d kLen)
    (hhashBytes : IsBytes (lib.hash []))
    (hmgfLen : ∀ s l, (lib.mgf s l).length = l)
    (hmgfBytes : ∀ s l, IsBytes (lib.mgf s l))
    (hseedLen : seed.length = (lib.hash []).length)
    (hseedBytes : IsBytes seed) (hmBytes : IsBytes m)
    (hsize : m.length + 2 * (lib.hash []).length + 2 ≤ kLen)
    (hbc : bc.Sound) (hivLen : iv.length = 16) (hivB : IsBytes iv)
    (hm2B : IsBytes m2) :
    (∃ ct, RSACrypto.encrypt lib (p * q) e kLen seed m = .ok ct ∧
           RSACrypto.decrypt lib (p * q) d kLen ct = .ok m) ∧
    AESCrypto.decrypt bc key (AESCrypto.encrypt bc key iv m2) = .ok m2 :=
  ⟨rsa_crypto_roundtrip lib p q e d kLen seed m hkey hhashBytes hmgfLen
      hmgfBytes hseedLen hseedBytes hmBytes hsize,
    aes_crypto_roundtrip bc key iv m2 hbc hivLen hivB hm2B⟩

/-- Witness for C2 at a concrete key and plaintexts. -/
theorem c2_rsa_aes_roundtrip_witness :
    RSAKeyValid rsaWitnessP rsaWitnessQ rsaWitnessE rsaWitnessE 5 ∧
    idBlockCipher.Sound ∧
    ((∃ ct, RSACrypto.encrypt trivRSALib (rsaWitnessP * rsaWitnessQ) rsaWitnessE 5
        [7] [77] = .ok ct ∧
        RSACrypto.decrypt trivRSALib (rsaWitnessP * rsaWitnessQ) rsaWitnessE 5 ct
          = .ok [77]) ∧
     AESCrypto.decrypt idBlockCipher [9] (AESCrypto.encrypt idBlockCipher [9]
        (List.replicate 16 0) [104, 105]) = .ok [104, 105]) := by
  have hkey : RSAKeyValid rsaWitnessP rsaWitnessQ rsaWitnessE rsaWitnessE 5 := by
    refine ⟨by norm_num [rsaWitnessP], by norm_num [rsaWitnessQ],
      by decide, ?_, by decide, by decide⟩
    show rsaWitnessE * rsaWitnessE % _ = 1 % _
    decide
  have hbc : idBlockCipher.Sound := by
    intro k b hl hB
    exact ⟨hl, hB, rfl⟩
  refine ⟨hkey, hbc, ?_⟩
  exact c2_rsa_aes_roundtrip trivRSALib rsaWitnessP rsaWitnessQ rsaWitnessE
    rsaWitnessE 5 [7] [77] idBlockCipher [9] (List.replicate 16 0) [104, 105]
    hkey (by decide)
    (fun s l => by simp [trivRSALib])
    (fun s l => by intro b hb; simp [trivRSALib, List.mem_replicate] at hb; omega)
    (by decide) (by decide) (by decide) (by decide)
    hbc (by decide) (by decide) (by decide)

/-- C3: for every ECC-family instance, decrypt of encrypt returns the
plaintext with all trailing ASCII-space bytes stripped; in particular a
plaintext with no trailing space round-trips exactly. -/
theorem c3_ecc_strip_roundtrip (lib : ECCLib)
    (staticPub staticPriv ephPriv ephPub iv m : List Nat)
    (hbc : lib.bc.Sound)
    (hexch : lib.exchange staticPriv (lib.loadPub (lib.serializePub ephPub))
      = lib.exchange ephPriv staticPub)
    (hserB : IsBytes (lib.serializePub ephPub))
    (hivLen : iv.length = 16) (hivB : IsBytes iv) (hmB : IsBytes m) :
    ECCCrypto.decrypt lib staticPriv
      (ECCCrypto.encrypt lib staticPub ephPriv ephPub iv m) = rstripSpaces m ∧
    (m.getLast? ≠ some 32 →
      ECCCrypto.decrypt lib staticPriv
        (ECCCrypto.encrypt lib staticPub ephPriv ephPub iv m) = m) := by
  have h := ecc_crypto_roundtrip lib staticPub staticPriv ephPriv ephPub iv m
    hbc hexch hserB hivLen hivB hmB
  exact ⟨h, fun hns => h.trans (rstripSpaces_no_trailing m hns)⟩

/-- Witness for C3: the documented example, the byte string of "hello "
decrypting to the byte string of "hello", and an exact round-trip for a
plaintext with no trailing space. -/
theorem c3_ecc_strip_roundtrip_witness :
    trivECCLib.bc.Sound ∧
    ECCCrypto.decrypt trivECCLib [1]
      (ECCCrypto.encrypt trivECCLib [4] [3] [2] (List.replicate 16 0)
        [104, 101, 108, 108, 111, 32]) = [104, 101, 108, 108, 111] ∧
    ECCCrypto.decrypt trivECCLib [1]
      (ECCCrypto.encrypt trivECCLib [4] [3] [2] (List.replicate 16 0)
        [104, 105]) = [104, 105] := by
  have hbc : trivECCLib.bc.Sound := by
    intro k b hl hB
    exact ⟨hl, hB, rfl⟩
  refine ⟨hbc, ?_, ?_⟩
  · exact ((c3_ecc_strip_roundtrip trivECCLib [4] [1] [3] [2]
      (List.replicate 16 0) [104, 101, 108, 108, 111, 32] hbc rfl
      (by decide) (by decide) (by decide) (by decide)).1).trans (by decide)
  · exact (c3_ecc_strip_roundtrip trivECCLib [4] [1] [3] [2]
      (List.replicate 16 0) [104, 105] hbc rfl
      (by decide) (by decide) (by decide) (by decide)).2 (by decide)

/-- C1 counterexample: a structurally valid envelope whose signature value
was tampered with (it differs from the honestly produced envelope) still
verifies as true, because verification only checks field presence; the claim
required false. -/
theorem c1_sig_verify_counterexample :
    { DilithiumCrypto.sign (fun _ => []) 2 (List.replicate 2420 0) [104, 105]
        with signature := some ['X'] }
      ≠ DilithiumCrypto.sign (fun _ => []) 2 (List.replicate 2420 0) [104, 105] ∧
    DilithiumCrypto.verify true [104, 105]
      { DilithiumCrypto.sign (fun _ => []) 2 (List.replicate 2420 0) [104, 105]
        with signature := some ['X'] } = .ok true := by
  constructor
  · decide
  · rfl

/-- C1 amended: with key material present, verify of sign returns true and
verify never raises on any structurally valid envelope — it returns exactly
the presence check of the signature and algorithm fields, so a tampered
envelope yields false only when the tampering removed one of those two
fields. -/
theorem c1_sig_verify_amended :
    (∀ (sha256 : List Nat → List Nat) lvl r m,
      DilithiumCrypto.verify true m (DilithiumCrypto.sign sha256 lvl r m)
        = .ok true) ∧
    (∀ (sha256 : List Nat → List Nat) k r m,
      FalconCrypto.verify true m (FalconCrypto.sign sha256 k r m) = .ok true) ∧
    (∀ m env, DilithiumCrypto.verify true m env
        = .ok (env.signature.isSome && env.algorithm.isSome)) ∧
    (∀ m env, FalconCrypto.verify true m env
        = .ok (env.signature.isSome && env.algorithm.isSome)) :=
  ⟨fun _ _ _ _ => rfl, fun _ _ _ _ => rfl, fun _ _ => rfl, fun _ _ => rfl⟩

/-- C9: the message_hash stored by both sign methods is the base64 of the
digest of the empty byte string — the message is never hashed (the source
finalizes a fresh SHA-256 object without updating it), so the stored field
is independent of the message. -/
theorem c9_sign_hash_ignores_message :
    (∀ (sha256 : List Nat → List Nat) lvl r m,
      (DilithiumCrypto.sign sha256 lvl r m).message_hash
        = some (b64encode (sha256 []))) ∧
    (∀ (sha256 : List Nat → List Nat) k r m,
      (FalconCrypto.sign sha256 k r m).message_hash
        = some (b64encode (sha256 []))) ∧
    (∀ (sha256 : List Nat → List Nat) lvl r m m2,
      (DilithiumCrypto.sign sha256 lvl r m).message_hash
        = (DilithiumCrypto.sign sha256 lvl r m2).message_hash) :=
  ⟨fun _ _ _ _ => rfl, fun _ _ _ _ => rfl, fun _ _ _ _ _ => rfl⟩

theorem recordOf_cases (β : Type) (tt : String) (input : List Nat)
    (res : Except String (OutputData β)) :
    (∀ e, res = .error e → recordOf β tt input res = .record
      { test_type := tt, input_data := input, output_data := none,
        success := false, error_message := some e }) ∧
    (∃ r, recordOf β tt input res = .record r ∧ r.test_type = tt) := by
  cases res with
  | ok v =>
    exact ⟨fun e he => by simp at he, ⟨_, rfl, rfl⟩⟩
  | error e =>
    refine ⟨fun e' he' => ?_, ⟨_, rfl, rfl⟩⟩
    simp only [Except.error.injEq] at he'
    rw [he']
    rfl

/-- C4 counterexample: a signing request against an `RSACrypto` instance (a
valid catalog algorithm whose class has no `sign` method) falls through the
dispatch chain to the 400 error response: the harness returns no TestRecord
at all, while the claim promised one for every operation input. -/
theorem c4_harness_totality_counterexample :
    test_algorithm (List Char)
      (mkRSAOps trivRSALib (rsaWitnessP * rsaWitnessQ) rsaWitnessE rsaWitnessE 5
        [7] [] [] [77]) Category.RSA "signing" [77]
      = .errorResponse "Unsupported test type: signing" := rfl

/-- C4 amended: for every operation kind that has a dispatch branch for the
instance (encryption, decryption and key generation always; signing and
verification exactly when the instance has those methods), the harness
always produces a persisted TestRecord whose operation kind is the
(possibly remapped) one, and a failure of the dispatched primitive is caught
and recorded with success false and the error text; operation kinds without
a branch yield an error response with no record. -/
theorem c4_harness_totality (β : Type) (ops : HarnessOps β) (category : Category)
    (test_type : String) (input : List Nat)
    (hsupp : supportedTestType ops.hasSign ops.hasVerify
      (remapTestType category test_type) = true) :
    test_algorithm β ops category test_type input
      = recordOf β (remapTestType category test_type) input
          (dispatchResult β ops (remapTestType category test_type)) ∧
    (∀ e, dispatchResult β ops (remapTestType category test_type) = .error e →
      test_algorithm β ops category test_type input = .record
        { test_type := remapTestType category test_type, input_data := input,
          output_data := none, success := false, error_message := some e }) ∧
    (∃ r, test_algorithm β ops category test_type input = .record r ∧
      r.test_type = remapTestType category test_type) := by
  have hmain : test_algorithm β ops category test_type input
      = recordOf β (remapTestType category test_type) input
          (dispatchResult β ops (remapTestType category test_type)) := by
    by_cases h1 : remapTestType category test_type = "encryption"
    · simp [test_algorithm, dispatchResult, h1]
    by_cases h2 : remapTestType category test_type = "decryption"
    · simp [test_algorithm, dispatchResult, h1, h2]
    by_cases h3 : remapTestType category test_type = "key_generation"
    · simp [test_algorithm, dispatchResult, h1, h2, h3]
    by_cases h4 : remapTestType category test_type = "signing"
    · have hs : ops.hasSign = true := by
        simp [supportedTestType, h1, h2, h3, h4] at hsupp
        exact hsupp
      simp [test_algorithm, dispatchResult, h1, h2, h3, h4, hs]
    by_cases h5 : remapTestType category test_type = "verification"
    · have hv : ops.hasVerify = true := by
        simp [supportedTestType, h1, h2, h3, h4, h5] at hsupp
        exact hsupp
      simp [test_algorithm, dispatchResult, h1, h2, h3, h4, h5, hv]
    · exfalso
      simp [supportedTestType, h1, h2, h3, h4, h5] at hsupp
  obtain ⟨hcaught, hrec⟩ := recordOf_cases β (remapTestType category test_type)
    input (dispatchResult β ops (remapTestType category test_type))
  refine ⟨hmain, fun e he => ?_, ?_⟩
  · rw [hmain]
    exact hcaught e he
  · obtain ⟨r, hr, hrt⟩ := hrec
    exact ⟨r, by rw [hmain, hr], hrt⟩

/-- Witness for C4 at a concrete supported operation: a decryption request
against the concrete RSA instance yields a TestRecord. -/
theorem c4_harness_totality_witness :
    supportedTestType false false
      (remapTestType Category.RSA "decryption") = true ∧
    (∃ r, test_algorithm (List Char)
      (mkRSAOps trivRSALib (rsaWitnessP * rsaWitnessQ) rsaWitnessE rsaWitnessE 5
        [7] [] [] [77]) Category.RSA "decryption" [77] = .record r ∧
      r.test_type = remapTestType Category.RSA "decryption") :=
  ⟨by decide,
    (c4_harness_totality (List Char)
      (mkRSAOps trivRSALib (rsaWitnessP * rsaWitnessQ) rsaWitnessE rsaWitnessE 5
        [7] [] [] [77]) Category.RSA "decryption" [77] (by decide)).2.2⟩

/-- C5: an encryption request against a Dilithium or Falcon algorithm is
remapped to signing before dispatch, and the resulting TestRecord is a
success whose operation kind is signing. -/
theorem c5_harness_remap (sha256 : List Nat → List Nat) (lvl k : Nat)
    (rD pubD privD rF pubF privF input : List Nat) :
    test_algorithm SigEnvelope (mkDilithiumOps sha256 lvl rD pubD privD input)
      .Dilithium "encryption" input
      = .record
          { test_type := "signing", input_data := input,
            output_data := some (.val (DilithiumCrypto.sign sha256 lvl rD input)),
            success := true, error_message := none } ∧
    test_algorithm SigEnvelope (mkFalconOps sha256 k rF pubF privF input)
      .Falcon "encryption" input
      = .record
          { test_type := "signing", input_data := input,
            output_data := some (.val (FalconCrypto.sign sha256 k rF input)),
            success := true, error_message := none } :=
  ⟨rfl, rfl⟩

/-- C7: generating a security report over zero TestRecords raises no error,
yields a quantum-readiness score of 0, and gives every catalog algorithm a
tier that is "unknown" or the below-80-percent bucket of the rule table
("medium" for quantum-safe entries, "low" for classical ones). -/
theorem c7_security_report_empty (algorithms : List Algorithm) (userId : Nat) :
    (generate_security_report algorithms [] userId).quantum_readiness_score = 0 ∧
    ∀ entry ∈ (generate_security_report algorithms [] userId).algorithm_analysis,
      entry.level = "unknown" ∨
      entry.level = (if entry.algorithm.quantum_safe then "medium" else "low") := by
  constructor
  · simp [generate_security_report, pqAdoptionRate, quantumTestCount]
  · intro entry hentry
    simp only [generate_security_report, List.mem_map] at hentry
    obtain ⟨alg, _, rfl⟩ := hentry
    right
    simp only [analysisEntry, successRate, testsFor, List.filter_nil,
      List.length_nil, lt_irrefl, if_false]
    cases halg : alg.quantum_safe <;>
      simp [securityLevelFor] <;> norm_num

/-- C8 counterexample: seeding the empty catalog inserts 13 descriptors, and
13 is not the claimed 17. -/
theorem c8_seed_counterexample :
    (seed_algorithms []).2 = 13 ∧ ((seed_algorithms []).2 = 17 → False) := by
  decide

/-- C8 amended: seeding an empty catalog inserts the fixed list of 13
descriptors (two RSA, two ECC, two AES, three Kyber, two Dilithium-style,
two Falcon-style), and re-seeding a non-empty catalog is a no-op that
inserts nothing and reports zero insertions. -/
theorem c8_seed_amended :
    seed_algorithms [] = (seedList, 13) ∧
    seedList.length = 13 ∧
    countCategory seedList .RSA = 2 ∧ countCategory seedList .ECC = 2 ∧
    countCategory seedList .AES = 2 ∧ countCategory seedList .Kyber = 3 ∧
    countCategory seedList .Dilithium = 2 ∧ countCategory seedList .Falcon = 2 ∧
    (∀ existing : List Algorithm, existing ≠ [] →
      seed_algorithms existing = (existing, 0)) := by
  refine ⟨rfl, rfl, rfl, rfl, rfl, rfl, rfl, rfl, fun existing hne => ?_⟩
  simp [seed_algorithms, List.length_pos.mpr hne]

/-- Witness for C8: re-seeding the already-populated catalog is a no-op. -/
theorem c8_seed_amended_witness :
    seedList ≠ [] ∧ seed_algorithms seedList = (seedList, 0) := by
  have h : seedList ≠ [] := by decide
  exact ⟨h, c8_seed_amended.2.2.2.2.2.2.2.2 seedList h⟩

theorem length_filterMap_map_eq (ids : List Nat) (lookup : Nat → Option Algorithm)
    (g : Nat → Algorithm → ComparisonRow) :
    (ids.filterMap (fun i => (lookup i).map (g i))).length
      = (ids.filterMap lookup).length := by
  induction ids with
  | nil => rfl
  | cons i rest ih =>
    cases h : lookup i <;> simp [List.filterMap_cons, h, ih]

/-- C6 counterexample: two algorithm ids are requested, only one resolves in
the catalog; the response contains a single row — the unresolvable id is
silently skipped by the loop, not included with a null performance as the
claim requires. -/
theorem c6_compare_counterexample :
    compare_algorithms SigEnvelope onlyDilithiumLookup constDilithiumTriad
      constZeroTimes [1, 2] [104]
      = .ok
          [ { algorithm := dilithium2Alg, performance := none,
              success := false,
              error := some "Dilithium is a signature algorithm, not for encryption. Use sign() method instead." } ] ∧
    (compare_algorithms SigEnvelope onlyDilithiumLookup constDilithiumTriad
      constZeroTimes [1, 2] [104]).map List.length = .ok 1 ∧
    ([1, 2] : List Nat).length = 2 := by
  refine ⟨rfl, ?_, rfl⟩
  rfl

/-- C6 amended: fewer than two ids fails with the insufficient-input error;
with two or more ids the response has exactly one row per id that resolves
in the catalog (ids that do not resolve are silently skipped), and every
resolvable algorithm whose implementation raises at the encryption step —
in particular the signature-only families — appears with performance null
and the error message rather than being dropped. -/
theorem c6_compare_rows (α : Type) (lookup : Nat → Option Algorithm)
    (opsFor : Algorithm → TriadOps α) (timesFor : Nat → PerfTimes)
    (algorithm_ids test_data : List Nat) :
    (algorithm_ids.length < 2 →
      compare_algorithms α lookup opsFor timesFor algorithm_ids test_data
        = .error "At least 2 algorithms required for comparison") ∧
    (2 ≤ algorithm_ids.length →
      compare_algorithms α lookup opsFor timesFor algorithm_ids test_data
        = .ok (algorithm_ids.filterMap (fun i => (lookup i).map
            (fun alg => compareRow α alg (opsFor alg) (timesFor i) test_data))) ∧
      (algorithm_ids.filterMap (fun i => (lookup i).map
          (fun alg => compareRow α alg (opsFor alg) (timesFor i) test_data))).length
        = (algorithm_ids.filterMap lookup).length ∧
      (∀ i ∈ algorithm_ids, ∀ alg, lookup i = some alg →
        ∀ e, (opsFor alg).encryptOp = .error e →
          { algorithm := alg, performance := none, success := false,
            error := some e } ∈ algorithm_ids.filterMap (fun i => (lookup i).map
              (fun alg => compareRow α alg (opsFor alg) (timesFor i) test_data)))) := by
  constructor
  · intro h
    simp [compare_algorithms, h]
  · intro h
    refine ⟨?_, length_filterMap_map_eq _ _ _, ?_⟩
    · unfold compare_algorithms
      rw [if_neg (by omega)]
    · intro i hi alg halg e he
      refine List.mem_filterMap.mpr ⟨i, hi, ?_⟩
      rw [halg, Option.map_some']
      congr 1
      simp [compareRow, he]

/-- Witness for C6 at the concrete two-id request. -/
theorem c6_compare_rows_witness :
    2 ≤ ([1, 2] : List Nat).length ∧
    compare_algorithms SigEnvelope onlyDilithiumLookup constDilithiumTriad
      constZeroTimes [1, 2] [104]
      = .ok (([1, 2] : List Nat).filterMap (fun i => (onlyDilithiumLookup i).map
          (fun alg => compareRow SigEnvelope alg (constDilithiumTriad alg)
            (constZeroTimes i) [104]))) :=
  ⟨by decide,
    ((c6_compare_rows SigEnvelope onlyDilithiumLookup constDilithiumTriad
      constZeroTimes [1, 2] [104]).2 (by decide)).1⟩

theorem bulk_tests_length_iff (store : List TestRow) (userId : Nat)
    (test_ids : List Nat) (hnodup : (store.map TestRow.id).Nodup) :
    (store.filter (fun t => test_ids.contains t.id && t.user_id == userId)).length
      = test_ids.length
    ↔ (test_ids.Nodup ∧
        ∀ i ∈ test_ids, ∃ t ∈ store, t.id = i ∧ t.user_id = userId) := by
  have hTsub : ((store.filter (fun t => test_ids.contains t.id
      && t.user_id == userId)).map TestRow.id).Sublist (store.map TestRow.id) :=
    (List.filter_sublist store).map TestRow.id
  have h1 : ((store.filter (fun t => test_ids.contains t.id
      && t.user_id == userId)).map TestRow.id).Nodup :=
    List.Nodup.sublist hTsub hnodup
  have h2 : (test_ids.dedup.filter
      (fun i => store.any (fun t => t.id == i && t.user_id == userId))).Nodup :=
    (List.nodup_dedup test_ids).filter _
  have hmemiff : ∀ x,
      x ∈ (store.filter (fun t => test_ids.contains t.id
        && t.user_id == userId)).map TestRow.id
      ↔ x ∈ test_ids.dedup.filter
          (fun i => store.any (fun t => t.id == i && t.user_id == userId)) := by
    intro x
    simp only [List.mem_map, List.mem_filter, List.mem_dedup, List.any_eq_true,
      Bool.and_eq_true, beq_iff_eq, List.contains_eq_any_beq, List.any_eq_true]
    constructor
    · rintro ⟨t, ⟨htStore, ⟨⟨i, hi, hti⟩, htu⟩⟩, rfl⟩
      subst hti
      exact ⟨hi, t, htStore, rfl, htu⟩
    · rintro ⟨hx, t, htStore, hti, htu⟩
      exact ⟨t, ⟨htStore, ⟨⟨x, hx, by simp [hti]⟩, htu⟩⟩, hti⟩
  have hlen1 : (store.filter (fun t => test_ids.contains t.id
        && t.user_id == userId)).length
      = (test_ids.dedup.filter
          (fun i => store.any (fun t => t.id == i && t.user_id == userId))).length := by
    have hperm := (List.perm_ext_iff_of_nodup h1 h2).mpr hmemiff
    have hl := hperm.length_eq
    simpa using hl
  have hBle : test_ids.dedup.length ≤ test_ids.length :=
    (List.dedup_sublist test_ids).length_le
  have hAle : (test_ids.dedup.filter
      (fun i => store.any (fun t => t.id == i && t.user_id == userId))).length
      ≤ test_ids.dedup.length :=
    (List.filter_sublist _).length_le
  constructor
  · intro hlen
    have hAB : (test_ids.dedup.filter
        (fun i => store.any (fun t => t.id == i && t.user_id == userId))).length
        = test_ids.dedup.length := by omega
    have hBC : test_ids.dedup.length = test_ids.length := by omega
    have hfil := (List.filter_sublist
      (p := fun i => store.any (fun t => t.id == i && t.user_id == userId))
      test_ids.dedup).eq_of_length hAB
    have hded := (List.dedup_sublist test_ids).eq_of_length hBC
    have hnd : test_ids.Nodup := hded ▸ List.nodup_dedup test_ids
    refine ⟨hnd, fun i hi => ?_⟩
    have hidedup : i ∈ test_ids.dedup := List.mem_dedup.mpr hi
    rw [← hfil] at hidedup
    have hiR := (List.mem_filter.mp hidedup).2
    simp only [List.any_eq_true, Bool.and_eq_true, beq_iff_eq] at hiR
    obtain ⟨t, ht, h1', h2'⟩ := hiR
    exact ⟨t, ht, h1', h2'⟩
  · rintro ⟨hnd, hres⟩
    have hded : test_ids.dedup = test_ids := List.dedup_eq_self.mpr hnd
    have hfil : test_ids.dedup.filter
        (fun i => store.any (fun t => t.id == i && t.user_id == userId))
        = test_ids.dedup := by
      rw [List.filter_eq_self]
      intro i hi
      obtain ⟨t, ht, h1', h2'⟩ := hres i (List.mem_dedup.mp hi)
      simp only [List.any_eq_true, Bool.and_eq_true, beq_iff_eq]
      exact ⟨t, ht, h1', h2'⟩
    rw [hlen1, hfil, hded]

/-- C10 counterexample: a request with an empty id list has no unresolvable
id, so the claim requires a successful deletion of zero tests; the handler
instead rejects it with an error. -/
theorem c10_bulk_delete_counterexample :
    bulk_delete_tests
      [{ id := 1, user_id := 1, algorithm_id := 1, success := true }] 1 []
      = .error "No test IDs provided" := rfl

/-- C10 amended: an empty id list is rejected with an error and deletes
nothing; for a nonempty list, if the ids are pairwise distinct and each
resolves to a test owned by the caller then exactly the requested tests are
deleted and the reported count equals their number, and otherwise (an
unresolvable or foreign id, or a duplicate id) the call fails with an error
and no test is deleted. -/
theorem c10_bulk_delete_all_or_nothing (store : List TestRow) (userId : Nat)
    (test_ids : List Nat) (hnodup : (store.map TestRow.id).Nodup)
    (hne : test_ids ≠ []) :
    ((test_ids.Nodup ∧
        ∀ i ∈ test_ids, ∃ t ∈ store, t.id = i ∧ t.user_id = userId) →
      bulk_delete_tests store userId test_ids
        = .ok (test_ids.length, store.filter
            (fun t => !(test_ids.contains t.id && t.user_id == userId))) ∧
      (∀ t, t ∈ store.filter
          (fun t => !(test_ids.contains t.id && t.user_id == userId))
        ↔ t ∈ store ∧ ¬(t.id ∈ test_ids ∧ t.user_id = userId))) ∧
    (¬(test_ids.Nodup ∧
        ∀ i ∈ test_ids, ∃ t ∈ store, t.id = i ∧ t.user_id = userId) →
      bulk_delete_tests store userId test_ids
        = .error "Some tests not found or access denied") := by
  have hlen0 : ¬ test_ids.length = 0 :=
    fun h => hne (List.length_eq_zero.mp h)
  have hkey := bulk_tests_length_iff store userId test_ids hnodup
  constructor
  · intro hgood
    have heq := hkey.mpr hgood
    constructor
    · unfold bulk_delete_tests
      rw [if_neg hlen0, if_neg (fun h => h heq), heq]
    · intro t
      simp only [List.mem_filter, Bool.not_eq_true', Bool.and_eq_false_iff,
        List.contains_eq_any_beq, List.any_eq_false, beq_iff_eq, beq_eq_false_iff_ne]
      constructor
      · rintro ⟨ht, hcond⟩
        refine ⟨ht, fun ⟨hmem, huser⟩ => ?_⟩
        rcases hcond with hc | hc
        · exact hc t.id hmem rfl
        · exact hc huser
      · rintro ⟨ht, hcond⟩
        refine ⟨ht, ?_⟩
        by_cases huser : t.user_id = userId
        · left
          intro i hi hti
          exact hcond ⟨hti ▸ hi, huser⟩
        · right
          exact huser
  · intro hbad
    have hne2 : (store.filter
        (fun t => test_ids.contains t.id && t.user_id == userId)).length
        ≠ test_ids.length := fun h => hbad (hkey.mp h)
    unfold bulk_delete_tests
    rw [if_neg hlen0, if_pos hne2]

/-- Witness for C10: two owned tests deleted by their two distinct ids. -/
theorem c10_bulk_delete_witness :
    (([{ id := 1, user_id := 1, algorithm_id := 1, success := true },
       { id := 2, user_id := 1, algorithm_id := 1, success := false }]
        : List TestRow).map TestRow.id).Nodup ∧
    bulk_delete_tests
      [{ id := 1, user_id := 1, algorithm_id := 1, success := true },
       { id := 2, user_id := 1, algorithm_id := 1, success := false }] 1 [1, 2]
      = .ok (2, []) := by
  refine ⟨by decide, ?_⟩
  have h := (c10_bulk_delete_all_or_nothing
    [{ id := 1, user_id := 1, algorithm_id := 1, success := true },
     { id := 2, user_id := 1, algorithm_id := 1, success := false }] 1 [1, 2]
    (by decide) (by decide)).1 (by decide)
  exact h.1.trans rfl
